import Mathlib

/-!
Verification of the streaming inference and tool-orchestration engine of the
llm-desktop chat client.  The definitions below are a shallow embedding of the
relevant Python sources:

  - src/ui/ui_text.py        : tool-call grammar parser (extraction, repair,
                               validation and clamping of arguments);
  - src/ui/chat_controller.py: stream consumer, turn orchestrator (agent loop)
                               and the fs_write conflict-resolution flow;
  - src/ui/ui_prompt.py      : the prompt assembler's terminal turn marker;
  - src/search/search.py     : the files/write backend contract (conflict on
                               existing files when overwrite is false).

Python strings are modelled as lists of characters.  Python's json.loads is
modelled by a strict recursive-descent parser covering the JSON fragment the
tool grammar uses: objects, arrays, strings with the single-character escape
sequences, integer numerals, booleans and null.  (\uXXXX escapes, floating
point numerals and number grouping underscores are outside the modelled
fragment; unescaped control characters inside string literals are rejected,
exactly as the strict parser rejects them, which is what the one-shot newline
repair pass exists to work around.)
-/

namespace LlmDesktop

/-- Characters of a Python string, modelled as a list. -/
abbrev Str := List Char

/-- Whitespace recognised by Python str.strip (ASCII subset). -/
def isPyWs (c : Char) : Bool :=
  c = ' ' || c = '\t' || c = '\n' || c = '\r' || c = '\x0b' || c = '\x0c'

/-- Drop matching characters from the right end of a list. -/
def dropWhileRight (p : Char → Bool) (l : Str) : Str :=
  ((l.reverse).dropWhile p).reverse

/-- Model of Python str.strip(). -/
def pyStrip (l : Str) : Str := dropWhileRight isPyWs (l.dropWhile isPyWs)

/-- Smallest index at or after i at which sub occurs in the list. -/
def findSubAux (sub : Str) : Str → Nat → Option Nat
  | [], i => if sub = [] then some i else none
  | c :: t, i => if sub.isPrefixOf (c :: t) then some i else findSubAux sub t (i + 1)

/-- Model of Python str.find (returning none instead of -1). -/
def pyFind (l sub : Str) : Option Nat := findSubAux sub l 0

/-- Model of the Python substring test (sub in l). -/
def pyContains (l sub : Str) : Bool := (pyFind l sub).isSome

/-- Model of Python str.splitlines() for the line breaks \n, \r\n and \r. -/
def splitlinesAux : Str → Str → List Str
  | [], acc => if acc = [] then [] else [acc.reverse]
  | '\r' :: '\n' :: t, acc => acc.reverse :: splitlinesAux t []
  | '\r' :: t, acc => acc.reverse :: splitlinesAux t []
  | '\n' :: t, acc => acc.reverse :: splitlinesAux t []
  | c :: t, acc => splitlinesAux t (c :: acc)

/-- Model of _strip_code_fences from src/ui/ui_text.py. -/
def strip_code_fences (text : Str) : Str :=
  let raw := pyStrip text
  if "```".toList.isPrefixOf raw && "```".toList.isSuffixOf raw then
    let lines := splitlinesAux raw []
    if 3 ≤ lines.length then
      pyStrip (List.intercalate ['\n'] ((lines.drop 1).dropLast))
    else raw
  else raw

/-- Scanner loop of _extract_first_json_object: walks characters keeping a
string-literal flag, an escape flag and a brace depth, and returns the
accumulated prefix when the depth returns to zero at a closing brace.  Brace
characters inside quoted strings do not affect the nesting depth. -/
def braceScanAux : Bool → Bool → Int → Str → Str → Option Str
  | _, _, _, [], _ => none
  | true, true, depth, c :: t, acc => braceScanAux true false depth t (c :: acc)
  | true, false, depth, c :: t, acc =>
    if c = '\\' then braceScanAux true true depth t (c :: acc)
    else if c = '"' then braceScanAux false false depth t (c :: acc)
    else braceScanAux true false depth t (c :: acc)
  | false, _, depth, c :: t, acc =>
    if c = '"' then braceScanAux true false depth t (c :: acc)
    else if c = '{' then braceScanAux false false (depth + 1) t (c :: acc)
    else if c = '}' then
      if depth - 1 = 0 then some (c :: acc).reverse
      else braceScanAux false false (depth - 1) t (c :: acc)
    else braceScanAux false false depth t (c :: acc)

/-- Model of _extract_first_json_object from src/ui/ui_text.py: prefer a
fenced ```json block when one is present and well formed, otherwise scan for
the first balanced brace-delimited object. -/
def _extract_first_json_object (text : Str) : Option Str :=
  if text = [] then none else
  let raw := text
  let fenceIdx : Option Nat :=
    match pyFind raw "```json".toList with
    | some i => some i
    | none => pyFind raw "```".toList
  let viaFence : Option Str :=
    match fenceIdx with
    | none => none
    | some i =>
      let tl := raw.drop i
      match findSubAux "```".toList (tl.drop 3) 3 with
      | none => none
      | some e =>
        let block := tl.take (e + 3)
        let inner := strip_code_fences block
        if inner.head? = some '{' && inner.getLast? = some '}' then some inner
        else none
  match viaFence with
  | some r => some r
  | none =>
    match pyFind raw ['{'] with
    | none => none
    | some start => braceScanAux false false 0 (raw.drop start) []

/-- Loop of _escape_raw_newlines_in_json_strings: only carriage-return and
line-feed characters that occur inside a quoted JSON string are rewritten to
the two-character sequence backslash-n. -/
def escNlAux : Bool → Bool → Str → Str
  | _, _, [] => []
  | true, true, c :: t => c :: escNlAux true false t
  | true, false, c :: t =>
    if c = '\\' then c :: escNlAux true true t
    else if c = '"' then c :: escNlAux false false t
    else if c = '\r' || c = '\n' then '\\' :: 'n' :: escNlAux true false t
    else c :: escNlAux true false t
  | false, _, c :: t =>
    if c = '"' then c :: escNlAux true false t else c :: escNlAux false false t

/-- Model of _escape_raw_newlines_in_json_strings from src/ui/ui_text.py. -/
def _escape_raw_newlines_in_json_strings (raw : Str) : Str :=
  if raw = [] then raw else escNlAux false false raw

/-! JSON values and a model of the strict parse performed by json.loads. -/

/-- JSON values (numerals restricted to integers in this model). -/
inductive Json where
  | null
  | bool (b : Bool)
  | num (n : Int)
  | str (s : Str)
  | arr (elems : List Json)
  | obj (members : List (Str × Json))

/-- JSON insignificant whitespace. -/
def isJsonWs (c : Char) : Bool := c = ' ' || c = '\t' || c = '\n' || c = '\r'

/-- Drop insignificant whitespace. -/
def skipWs (l : Str) : Str := l.dropWhile isJsonWs

/-- Single-character JSON escapes. -/
def jsonEscape? (c : Char) : Option Char :=
  if c = '"' then some '"'
  else if c = '\\' then some '\\'
  else if c = '/' then some '/'
  else if c = 'b' then some '\x08'
  else if c = 'f' then some '\x0c'
  else if c = 'n' then some '\n'
  else if c = 'r' then some '\r'
  else if c = 't' then some '\t'
  else none

/-- Body of a JSON string literal, after the opening quote.  Returns the
decoded characters and the remainder after the closing quote.  Unescaped
control characters are rejected, as the strict parser rejects them. -/
def parseStringBody : Str → Option (Str × Str)
  | [] => none
  | c :: t =>
    if c = '"' then some ([], t)
    else if c = '\\' then
      match t with
      | [] => none
      | e :: t2 =>
        match jsonEscape? e with
        | none => none
        | some d =>
          match parseStringBody t2 with
          | none => none
          | some (s, r) => some (d :: s, r)
    else if c.toNat < 32 then none
    else
      match parseStringBody t with
      | none => none
      | some (s, r) => some (c :: s, r)

/-- Value of a digit string. -/
def digitsVal (l : Str) : Nat := l.foldl (fun a c => a * 10 + (c.toNat - 48)) 0

/-- The sign-independent part of the integer numeral parser: digits with no
leading zero, valued in decimal. -/
def parseNumTail (neg : Bool) (l1 : Str) : Option (Int × Str) :=
  let ds := l1.takeWhile (fun c => c.isDigit)
  let rest := l1.dropWhile (fun c => c.isDigit)
  if ds = [] then none
  else if 2 ≤ ds.length && ds.head? = some '0' then none
  else
    let v : Int := (digitsVal ds : Nat)
    some (if neg then -v else v, rest)

/-- Integer JSON numeral (no leading zeros, optional minus sign). -/
def parseNumber : Str → Option (Int × Str)
  | '-' :: t => parseNumTail true t
  | l => parseNumTail false l

mutual

/-- One JSON value, by recursive descent with fuel. -/
def parseValue : Nat → Str → Option (Json × Str)
  | 0, _ => none
  | fuel + 1, l =>
    match l with
    | [] => none
    | c :: t =>
      if c = '{' then
        match skipWs t with
        | '}' :: r => some (.obj [], r)
        | l1 =>
          match parseMembers fuel l1 with
          | none => none
          | some (ms, r) => some (.obj ms, r)
      else if c = '[' then
        match skipWs t with
        | ']' :: r => some (.arr [], r)
        | l1 =>
          match parseElems fuel l1 with
          | none => none
          | some (vs, r) => some (.arr vs, r)
      else if c = '"' then
        match parseStringBody t with
        | none => none
        | some (s, r) => some (.str s, r)
      else if c = 't' then
        if "rue".toList.isPrefixOf t then some (.bool true, t.drop 3) else none
      else if c = 'f' then
        if "alse".toList.isPrefixOf t then some (.bool false, t.drop 4) else none
      else if c = 'n' then
        if "ull".toList.isPrefixOf t then some (.null, t.drop 3) else none
      else if c = '-' || c.isDigit then
        match parseNumber (c :: t) with
        | none => none
        | some (v, r) => some (.num v, r)
      else none

/-- Nonempty member list of a JSON object, up to and including the closing
brace.  Members are kept in source order; lookups take the last occurrence of
a key, matching the dict json.loads builds. -/
def parseMembers : Nat → Str → Option (List (Str × Json) × Str)
  | 0, _ => none
  | fuel + 1, l =>
    match l with
    | '"' :: t =>
      match parseStringBody t with
      | none => none
      | some (k, r1) =>
        match skipWs r1 with
        | ':' :: r2 =>
          match parseValue fuel (skipWs r2) with
          | none => none
          | some (v, r3) =>
            match skipWs r3 with
            | ',' :: r4 =>
              match parseMembers fuel (skipWs r4) with
              | none => none
              | some (ms, r5) => some ((k, v) :: ms, r5)
            | '}' :: r4 => some ([(k, v)], r4)
            | _ => none
        | _ => none
    | _ => none

/-- Nonempty element list of a JSON array, up to and including the closing
bracket. -/
def parseElems : Nat → Str → Option (List Json × Str)
  | 0, _ => none
  | fuel + 1, l =>
    match parseValue fuel l with
    | none => none
    | some (v, r) =>
      match skipWs r with
      | ',' :: r2 =>
        match parseElems fuel (skipWs r2) with
        | none => none
        | some (vs, r3) => some (v :: vs, r3)
      | ']' :: r2 => some ([v], r2)
      | _ => none

end

/-- Model of the strict parse json.loads performs: one complete value with
nothing but whitespace around it. -/
def jsonLoads (l : Str) : Option Json :=
  match parseValue (l.length + 1) (skipWs l) with
  | none => none
  | some (v, r) => if skipWs r = [] then some v else none

/-! Python-level coercions used by the argument validator. -/

/-- Lookup in a parsed object, taking the last occurrence of a key, which is
what the dict built by json.loads holds when a key repeats. -/
def jGet (ms : List (Str × Json)) (k : Str) : Option Json :=
  ((ms.filter (fun kv => decide (kv.1 = k))).getLast?).map (fun kv => kv.2)

/-- Python truthiness of a JSON value. -/
def pyTruthy : Json → Bool
  | .null => false
  | .bool b => b
  | .num n => decide (n ≠ 0)
  | .str s => !s.isEmpty
  | .arr xs => !xs.isEmpty
  | .obj ms => !ms.isEmpty

/-- Model of Python int(s) on a string: optional sign and decimal digits,
surrounding whitespace allowed. -/
def pyIntOfStr (s : Str) : Option Int :=
  let t := pyStrip s
  let p := match t with
    | '-' :: r => (true, r)
    | '+' :: r => (false, r)
    | _ => (false, t)
  if p.2 ≠ [] && p.2.all (fun c => c.isDigit) then
    let v : Int := (digitsVal p.2 : Nat)
    some (if p.1 then -v else v)
  else none

/-- Model of Python int(x) on a JSON value, none when int raises. -/
def pyInt? : Json → Option Int
  | .num n => some n
  | .bool b => some (if b then 1 else 0)
  | .str s => pyIntOfStr s
  | _ => none

/-- Validated tool calls: the closed set of commands the parser can build. -/
inductive ToolCall where
  | web_search (query : Str) (count : Int)
  | fs_list (path : Str) (recursive : Bool) (limit : Int)
  | fs_read (path : Str) (max_bytes : Int)
  | fs_write (path : Str) (content : Str) (overwrite : Bool)
  | fs_search (query : Str) (path : Str) (limit : Int) (regex : Bool)
      (case_sensitive : Bool)
deriving DecidableEq, Repr

/-- Clamp an integer to a closed interval, as max(lo, min(hi, v)) does. -/
def clampInt (lo hi v : Int) : Int := max lo (min hi v)

/-- Integer argument with default: args.get(k, dflt) followed by int() with
the default restored when int() raises. -/
def intArg (args : List (Str × Json)) (k : Str) (dflt : Int) : Int :=
  match jGet args k with
  | none => dflt
  | some v => (pyInt? v).getD dflt

/-- Boolean argument with default: bool(args.get(k, dflt)). -/
def boolArg (args : List (Str × Json)) (k : Str) (dflt : Bool) : Bool :=
  match jGet args k with
  | none => dflt
  | some v => pyTruthy v

/-- String path argument that falls back to "." when missing, not a string,
or blank, as fs_list and fs_search do. -/
def pathOrDot (args : List (Str × Json)) : Str :=
  match jGet args "path".toList with
  | some (.str p) => if pyStrip p = [] then ".".toList else p
  | _ => ".".toList

/-- All elements as strings, none when any element is not a string: the
all-isinstance-str guard of the fs_write content handling. -/
def strListOf : List Json → Option (List Str)
  | [] => some []
  | .str s :: t =>
    match strListOf t with
    | some ss => some (s :: ss)
    | none => none
  | _ => none

/-- A JSON array of strings joined with newline, none when any element is not
a string. -/
def joinedStrList (xs : List Json) : Option Str :=
  match strListOf xs with
  | some ss => some (List.intercalate ['\n'] ss)
  | none => none

/-- Validation and clamping stage of parse_tool_call (src/ui/ui_text.py lines
167-252): requires an object with a tool name from the closed set and a dict
of args, and normalises each tool's arguments with explicit defaults and
bounds. -/
def validateToolCall (j : Json) : Option ToolCall :=
  match j with
  | .obj top =>
    match jGet top "args".toList with
    | some (.obj args) =>
      match jGet top "tool".toList with
      | some (.str name) =>
        if name = "web_search".toList then
          match jGet args "query".toList with
          | some (.str q) =>
            if pyStrip q = [] then none
            else some (.web_search (pyStrip q)
              (clampInt 1 10 (intArg args "count".toList 5)))
          | _ => none
        else if name = "fs_list".toList then
          some (.fs_list (pyStrip (pathOrDot args))
            (boolArg args "recursive".toList false)
            (clampInt 1 1000 (intArg args "limit".toList 200)))
        else if name = "fs_read".toList then
          match jGet args "path".toList with
          | some (.str p) =>
            if pyStrip p = [] then none
            else some (.fs_read (pyStrip p)
              (clampInt 1 5000000 (intArg args "max_bytes".toList 200000)))
          | _ => none
        else if name = "fs_write".toList then
          match jGet args "path".toList with
          | some (.str p) =>
            if pyStrip p = [] then none
            else
              let content0 : Option Json :=
                match jGet args "content".toList with
                | some Json.null => none
                | v => v
              let contentLines : Option Json :=
                match jGet args "content_lines".toList with
                | some Json.null => none
                | v => v
              let contentStr : Option Str :=
                match content0 with
                | some (.str s) => some s
                | some (.arr xs) => joinedStrList xs
                | some _ => none
                | none =>
                  match contentLines with
                  | some (.arr xs) => joinedStrList xs
                  | _ => none
              match contentStr with
              | none => none
              | some s =>
                some (.fs_write (pyStrip p) s (boolArg args "overwrite".toList true))
          | _ => none
        else if name = "fs_search".toList then
          match jGet args "query".toList with
          | some (.str q) =>
            if pyStrip q = [] then none
            else some (.fs_search (pyStrip q) (pyStrip (pathOrDot args))
              (clampInt 1 500 (intArg args "limit".toList 50))
              (boolArg args "regex".toList false)
              (boolArg args "case_sensitive".toList false))
          | _ => none
        else none
      | _ => none
    | _ => none
  | _ => none

/-- Model of parse_tool_call from src/ui/ui_text.py: extract the first
balanced JSON object from the stripped text, strictly parse it, on failure
apply the newline repair pass exactly once and retry, then validate. -/
def parse_tool_call (text : Str) : Option ToolCall :=
  match _extract_first_json_object (pyStrip text) with
  | none => none
  | some raw =>
    match jsonLoads raw with
    | some obj => validateToolCall obj
    | none =>
      let fixed := _escape_raw_newlines_in_json_strings raw
      if fixed = raw then none
      else
        match jsonLoads fixed with
        | some obj => validateToolCall obj
        | none => none

/-! Concrete tool-call objects used to state the clamping claims. -/

/-- A web_search call with an explicit integer count. -/
def webSearchObj (q : Str) (c : Int) : Json :=
  Json.obj [("tool".toList, Json.str "web_search".toList),
    ("args".toList, Json.obj [("query".toList, Json.str q), ("count".toList, Json.num c)])]

/-- A web_search call with no count argument. -/
def webSearchObjNoCount (q : Str) : Json :=
  Json.obj [("tool".toList, Json.str "web_search".toList),
    ("args".toList, Json.obj [("query".toList, Json.str q)])]

/-- An fs_list call with an explicit integer limit. -/
def fsListObj (lim : Int) : Json :=
  Json.obj [("tool".toList, Json.str "fs_list".toList),
    ("args".toList, Json.obj [("path".toList, Json.str "x".toList),
      ("limit".toList, Json.num lim)])]

/-- An fs_list call with no limit argument. -/
def fsListObjNoLimit : Json :=
  Json.obj [("tool".toList, Json.str "fs_list".toList),
    ("args".toList, Json.obj [("path".toList, Json.str "x".toList)])]

/-- An fs_read call with an explicit max_bytes. -/
def fsReadObj (mb : Int) : Json :=
  Json.obj [("tool".toList, Json.str "fs_read".toList),
    ("args".toList, Json.obj [("path".toList, Json.str "x".toList),
      ("max_bytes".toList, Json.num mb)])]

/-- An fs_read call with no max_bytes argument. -/
def fsReadObjNoMax : Json :=
  Json.obj [("tool".toList, Json.str "fs_read".toList),
    ("args".toList, Json.obj [("path".toList, Json.str "x".toList)])]

/-- An fs_search call with an explicit limit. -/
def fsSearchObj (lim : Int) : Json :=
  Json.obj [("tool".toList, Json.str "fs_search".toList),
    ("args".toList, Json.obj [("query".toList, Json.str "q".toList),
      ("limit".toList, Json.num lim)])]

/-- An fs_search call with no limit argument. -/
def fsSearchObjNoLimit : Json :=
  Json.obj [("tool".toList, Json.str "fs_search".toList),
    ("args".toList, Json.obj [("query".toList, Json.str "q".toList)])]

/-- An fs_write call whose content is an arbitrary JSON value. -/
def fsWriteObj (p : Str) (content : Json) : Json :=
  Json.obj [("tool".toList, Json.str "fs_write".toList),
    ("args".toList, Json.obj [("path".toList, Json.str p),
      ("content".toList, content)])]

/-- Literal CR and LF characters are rewritten to backslash-n; every other
character maps to itself. -/
def convRawNl : Str → Str
  | [] => []
  | c :: t => (if c = '\r' || c = '\n' then ['\\', 'n'] else [c]) ++ convRawNl t

/-- An fs_write tool call whose content string holds a raw (unescaped)
newline: invalid strict JSON, the known model failure mode. -/
def rawNewlineScenario : Str :=
  "\x7b\"tool\":\"fs_write\",\"args\":\x7b\"path\":\"a.txt\",\"content\":\"l1\nl2\"\x7d\x7d".toList

/-- A balanced object whose string literal holds a raw newline and whose
remainder is invalid JSON even after the repair pass. -/
def unrepairableScenario : Str := "\x7b\"a\n\": x\x7d".toList

/-! Relation between the strict JSON parse and the balanced-brace scanner:
a successfully parsed value is consumed by the scanner without an early
return and without a net depth change.  This is what makes the extraction
step of parse_tool_call return exactly the parsed object. -/

/-- Characters that leave the scanner state unchanged outside strings. -/
def plainChar (c : Char) : Bool := !(c = '"' || c = '{' || c = '}')

/-- The claimed web_search scenario embedded mid-sentence. -/
def c1Scenario : Str :=
  ("Sure - I will look that up: \x7b\"tool\":\"web_search\",\"args\":"
    ++ "\x7b\"query\":\"rust vs go\",\"count\":3\x7d\x7d and then answer.").toList

/-- A fenced variant of a tool call inside surrounding prose. -/
def c1FencedScenario : Str :=
  ("Here is the call:\n```json\n\x7b\"tool\":\"fs_list\",\"args\":\x7b\x7d\x7d"
    ++ "\n```\nrunning it now.").toList

/-- A tool-call object whose string argument itself holds brace characters,
exercising the string-literal tracking of the extractor. -/
def c1WitnessObj : Str :=
  ("\x7b\"tool\":\"web_search\",\"args\":\x7b\"query\":"
    ++ "\"braces \x7b inside \x7d string\",\"count\":12\x7d\x7d").toList

/-- The JSON value of c1WitnessObj. -/
def c1WitnessJson : Json :=
  Json.obj [("tool".toList, Json.str "web_search".toList),
    ("args".toList, Json.obj [("query".toList,
      Json.str "braces \x7b inside \x7d string".toList),
      ("count".toList, Json.num 12)])]

/-! Turn orchestrator (agent_worker, src/ui/chat_controller.py lines
354-398): the per-turn dispatch loop over stream results. -/

/-- Observable result of one stream run, as the agent loop reads it:
the error and cancellation fields of the outcome dictionary, and the text
it parses (tool_call_raw if set, else the message content). -/
structure RoundResult where
  error : Option Str
  was_cancelled : Bool
  rawOut : Str
deriving DecidableEq, Repr

/-- Python truthiness of the optional error string. -/
def truthyOptStr : Option Str → Bool
  | none => false
  | some s => !s.isEmpty

/-- How the agent loop ends. -/
inductive TurnEnd where
  | errored
  | cancelled
  | budgetExceeded
  | finished
  | outOfScript
deriving DecidableEq, Repr

/-- The fixed per-turn tool-call budget (line 355). -/
def toolBudget : Nat := 8

/-- Model of the agent_worker loop: stream one round; stop on error or
cancellation; parse the output; with a call and exhausted budget mark
budget-exceeded with no dispatch; with a call and budget dispatch it,
decrement, and loop; with no call finalize.  The rounds list scripts the
successive stream results; outOfScript flags a script too short for the
loop (unreachable in the real program, which always gets another stream
result). -/
def agentLoop : Nat → List RoundResult → List ToolCall → TurnEnd × List ToolCall
  | _, [], acc => (.outOfScript, acc)
  | budget, r :: rest, acc =>
    if truthyOptStr r.error then (.errored, acc)
    else if r.was_cancelled then (.cancelled, acc)
    else
      match parse_tool_call (pyStrip r.rawOut) with
      | some tc =>
        if budget = 0 then (.budgetExceeded, acc)
        else agentLoop (budget - 1) rest (acc ++ [tc])
      | none => (.finished, acc)

/-- One user turn: the loop started with the fixed budget. -/
def agent_worker (rounds : List RoundResult) : TurnEnd × List ToolCall :=
  agentLoop toolBudget rounds []

/-! Tool dispatcher, fs_write branch (src/ui/chat_controller.py lines
471-542) against the files/write backend contract (src/search/search.py
line 1265). -/

/-- The sandboxed file store of the backend, newest entry first. -/
abbrev FileSys := List (Str × Str)

/-- Lookup of a path in the store. -/
def fsLookup : FileSys → Str → Option Str
  | [], _ => none
  | (p1, c1) :: t, p => if p1 = p then some c1 else fsLookup t p

/-- Contract of the files/write endpoint: an existing target with overwrite
false is refused with the distinguishable detail string, otherwise the
content is written. -/
def backendFsWrite (fs : FileSys) (path content : Str) (overwrite : Bool) :
    Except Str FileSys :=
  if (fsLookup fs path).isSome && !overwrite then
    Except.error "File exists and overwrite=false".toList
  else
    Except.ok ((path, content) :: fs)

/-- ConflictDecision: tri-state outcome of the synchronous write-conflict
prompt. -/
inductive ConflictDecision where
  | cancel
  | overwrite
  | bak
deriving DecidableEq, Repr

/-- The bounded wait on the conflict dialog (evt.wait(timeout=180)). -/
def conflictTimeoutSeconds : Nat := 180

/-- Model of _prompt_write_conflict: the dialog answer is an oracle; no
answer within the timeout leaves the decision unset, and the fallback
(decision or cancel) yields cancel. -/
def promptWriteConflict (oracle : Option ConflictDecision) : ConflictDecision :=
  oracle.getD .cancel

/-- Result of the dispatcher's fs_write branch. -/
inductive WriteOutcome where
  | written (path : Str)
  | cancelledWrite
  | failed (msg : Str)
deriving DecidableEq, Repr

/-- Candidate backup name of the n-th attempt: .bak, then .bak.1, .bak.2
and so on. -/
def bakCandidate (path : Str) (n : Nat) : Str :=
  path ++ (if n = 0 then ".bak".toList else ".bak.".toList ++ (Nat.repr n).toList)

/-- The substring test applied to a backend error message to recognise the
existing-file conflict. -/
def isConflictMsg (msg : Str) : Bool :=
  pyContains msg "overwrite=false".toList || pyContains msg "File exists".toList

/-- Loop of _write_unique_bak: try candidate n with overwrite false; on a
conflict move to the next candidate; any other failure propagates; fuel
counts the remaining attempts out of 50. -/
def writeUniqueBakAux (path content : Str) :
    FileSys → Nat → Nat → FileSys × List (Str × Bool) × WriteOutcome
  | fs, _, 0 =>
    (fs, [], .failed "Unable to find an available .bak filename after 50 attempts.".toList)
  | fs, n, fuel + 1 =>
    let cand := bakCandidate path n
    match backendFsWrite fs cand content false with
    | .ok fs2 => (fs2, [(cand, false)], .written cand)
    | .error msg =>
      if isConflictMsg msg then
        let r := writeUniqueBakAux path content fs (n + 1) fuel
        (r.1, (cand, false) :: r.2.1, r.2.2)
      else (fs, [(cand, false)], .failed msg)

/-- Model of _write_unique_bak. -/
def writeUniqueBak (fs : FileSys) (path content : Str) :
    FileSys × List (Str × Bool) × WriteOutcome :=
  writeUniqueBakAux path content fs 0 50

/-- Model of the fs_write dispatch branch: the first backend write is always
issued with overwrite false — the parsed overwrite flag feeds only the
dialog's note text — and a conflict synchronously asks for a decision
driving a single overwrite retry, the backup scan, or cancellation.  The
result carries the store, the trace of backend write calls as (path,
overwrite) pairs, and the outcome. -/
def dispatchFsWrite (fs : FileSys) (oracle : Option ConflictDecision)
    (path content : Str) (overwriteRequested : Bool) :
    FileSys × List (Str × Bool) × WriteOutcome :=
  let _note : Str := if overwriteRequested
    then "The model requested overwrite=true.".toList
    else "The model requested overwrite=false.".toList
  match backendFsWrite fs path content false with
  | .ok fs2 => (fs2, [(path, false)], .written path)
  | .error msg =>
    if !isConflictMsg msg then (fs, [(path, false)], .failed msg)
    else
      match promptWriteConflict oracle with
      | .overwrite =>
        match backendFsWrite fs path content true with
        | .ok fs2 => (fs2, [(path, false), (path, true)], .written path)
        | .error msg2 => (fs, [(path, false), (path, true)], .failed msg2)
      | .bak =>
        let r := writeUniqueBak fs path content
        (r.1, (path, false) :: r.2.1, r.2.2)
      | .cancel => (fs, [(path, false)], .cancelledWrite)

/-! Stream consumer (stream_completion_into, src/ui/chat_controller.py
lines 114-352), modelled as a script-driven machine.  Times are exact
integers in milliseconds standing for the perf_counter and wall-clock
readings — the 0.05 s debounce is 50, the 180 s loading deadline 180000,
and the seconds-to-milliseconds factor of the session stat is 1; the
cancellation flag is set once and observed from a given check index on,
matching the set-once threading.Event. -/

/-- Character filter of strip_emoji (src/ui/ui_text.py lines 17-34). -/
def isEmojiStripped (c : Char) : Bool :=
  c = '\u200D' || c = '\uFE0F' || c = '\u20E3'
  || (0x1F300 ≤ c.toNat && c.toNat ≤ 0x1FAFF)
  || (0x1F1E6 ≤ c.toNat && c.toNat ≤ 0x1F1FF)
  || (0x2600 ≤ c.toNat && c.toNat ≤ 0x26FF)
  || (0x2700 ≤ c.toNat && c.toNat ≤ 0x27BF)
  || (0x1F000 ≤ c.toNat && c.toNat ≤ 0x1F02F)

/-- Model of strip_emoji. -/
def strip_emoji (text : Str) : Str := text.filter (fun c => !isEmojiStripped c)

/-- Tool names of parsed calls, the "tool" field of the returned dict. -/
def toolName : ToolCall → Str
  | .web_search .. => "web_search".toList
  | .fs_list .. => "fs_list".toList
  | .fs_read .. => "fs_read".toList
  | .fs_write .. => "fs_write".toList
  | .fs_search .. => "fs_search".toList

/-- Status line shown in place of raw tool-call syntax (lines 159-170). -/
def tool_status_text_for (name : Str) : Str :=
  if name = "web_search".toList then "Searching the web...".toList
  else if name = "fs_list".toList then "Listing files...".toList
  else if name = "fs_search".toList then "Searching files...".toList
  else if name = "fs_read".toList then "Reading file...".toList
  else if name = "fs_write".toList then "Writing file...".toList
  else "Running tool...".toList

/-- The plain assistant turn marker ending every assembled prompt
(src/ui/ui_prompt.py line 159). -/
def assistantMarker : Str := "\nASSISTANT:".toList

/-- The continuation suffix used on reconnect (line 181). -/
def continuationDirective : Str :=
  ("\nSYSTEM: Previous stream disconnected. Continue from where you left off"
    ++ " without repeating.\nASSISTANT:").toList

/-- Prompt sent on a given attempt (lines 179-181): past the first attempt
a prompt ending in the plain turn marker has the marker replaced by the
continuation directive. -/
def buildPrompt (base : Str) (attempt : Nat) : Str :=
  if 0 < attempt ∧ assistantMarker.isSuffixOf base then
    base.take (base.length - assistantMarker.length) ++ continuationDirective
  else base

/-- The fatal loading-deadline message (line 225). -/
def loadingTimeoutMsg : Str := "Model is still loading (timeout).".toList

/-- The fatal completion-error message (line 229; the reason fallback for an
empty detail is an external response field and not modelled). -/
def httpErrorMsg (status : Nat) (detail : Str) : Str :=
  "Completion error ".toList ++ (Nat.repr status).toList ++ ": ".toList ++ detail

/-- Time values: perf_counter and wall-clock readings. -/
abbrev Time := ℤ

/-- One iterated line of the live stream. -/
inductive LineEvent where
  | blank
  | nondata
  | chunk (t : Time) (content : Str)
deriving DecidableEq, Repr

/-- How the line iteration of one attempt ends when no break occurred. -/
inductive StreamEnd where
  | done
  | fail (transient : Bool) (msg : Str)
deriving DecidableEq, Repr

/-- One connection of the script. -/
inductive ConnEvent where
  | postFail (transient : Bool) (msg : Str)
  | loading (wallTime : Time)
  | httpError (status : Nat) (detail : Str)
  | ok (lines : List LineEvent) (endr : StreamEnd)
deriving DecidableEq, Repr

/-- A scripted while-iteration: the prompt assembler's output for the
iteration and the connection outcome. -/
structure ConnScript where
  basePrompt : Str
  conn : ConnEvent
deriving DecidableEq, Repr

/-- Configuration of one run. -/
structure StreamCfg where
  startTime : Time
  startWall : Time
  endTime : Time
  charsPerToken : Nat
  stripEmoji : Bool
  cancelAt : Option Nat
deriving DecidableEq, Repr

/-- Mutable state of one run: the message fields, the buffers, the timing
and bookkeeping locals, plus ghost observers (consumedRaw, sentPrompts,
retries) that record what happened without influencing behaviour. -/
structure StreamSt where
  content : Str
  displayRaw : Str
  pendingRaw : Str
  pendingDisplay : Str
  chars : Nat
  firstTok : Option Time
  lastFlush : Time
  attempt : Nat
  lastErr : Option Str
  ticks : Nat
  sawTool : Bool
  toolRaw : Option Str
  wasCancelled : Bool
  consumedRaw : Str
  sentPrompts : List (Nat × Str × Str)
  retries : Nat
deriving DecidableEq, Repr

/-- One cancellation check: observed set when the set-once index has been
reached; every check advances the check counter. -/
def checkCancel (cfg : StreamCfg) (st : StreamSt) : Bool × StreamSt :=
  (match cfg.cancelAt with
   | none => false
   | some k => decide (k ≤ st.ticks),
   { st with ticks := st.ticks + 1 })

/-- flush_pending (lines 127-151): move both buffers into the message. -/
def flush_pending (st : StreamSt) : StreamSt :=
  { st with
    displayRaw := st.displayRaw ++ st.pendingDisplay
    content := st.content ++ st.pendingRaw
    pendingDisplay := []
    pendingRaw := [] }

/-- How the line loop of one attempt exits. -/
inductive LoopExit where
  | cancelledLoop
  | toolDetected
  | finishedLines
deriving DecidableEq, Repr

/-- The detection condition re-checked after every buffered append: the
parser yields a call and the extractor yields its raw text (lines
260-266). -/
def detectCond (combined : Str) : Bool :=
  (parse_tool_call (pyStrip combined)).isSome
    && (_extract_first_json_object (pyStrip combined)).isSome

/-- The buffered append of one decoded chunk (lines 246-259): stamp the
first-token time, count the characters, append the display text (optionally
emoji-stripped) and the raw text to the buffers; the consumedRaw ghost
records the chunk as consumed. -/
def chunkAppend (cfg : StreamCfg) (st : StreamSt) (tArr : Time)
    (content : Str) : StreamSt :=
  { st with
    firstTok := (match st.firstTok with
      | none => some tArr
      | some x => some x)
    chars := st.chars + content.length
    pendingDisplay := st.pendingDisplay
      ++ (if cfg.stripEmoji then strip_emoji content else content)
    pendingRaw := st.pendingRaw ++ content
    consumedRaw := st.consumedRaw ++ content }

/-- The debounced flush after a non-detecting append (lines 297-301). -/
def debounce (tArr : Time) (st2 : StreamSt) : StreamSt :=
  if 50 ≤ tArr - st2.lastFlush
    then flush_pending { st2 with lastFlush := tArr } else st2

/-- The state change on a positive grammar match (lines 267-296): record
the raw call text, replace the message by the status line, and discard both
buffers. -/
def markTool (st2 : StreamSt) (tc : ToolCall) (toolJson : Str) : StreamSt :=
  { st2 with
    sawTool := true
    toolRaw := some toolJson
    content := tool_status_text_for (toolName tc)
    displayRaw := tool_status_text_for (toolName tc)
    pendingDisplay := []
    pendingRaw := [] }

/-- The line loop (lines 234-306): per raw line check cancellation, skip
keep-alives, decode a chunk, stamp first-token time, buffer the text, re-run
the grammar parser on the combined content, and debounce-flush; a detected
call discards the buffered display text, replaces the message by a status
line, records the raw call text and stops consuming. -/
def processLines (cfg : StreamCfg) :
    StreamSt → List LineEvent → StreamSt × List LineEvent × LoopExit
  | st, [] => (st, [], .finishedLines)
  | st, ev :: rest =>
    let p := checkCancel cfg st
    if p.1 then ({ p.2 with wasCancelled := true }, rest, .cancelledLoop)
    else
      match ev with
      | .blank => processLines cfg p.2 rest
      | .nondata => processLines cfg p.2 rest
      | .chunk tArr content =>
        if content = [] then processLines cfg p.2 rest
        else
          let st2 := chunkAppend cfg p.2 tArr content
          if st2.sawTool = false then
            match parse_tool_call (pyStrip (st2.content ++ st2.pendingRaw)) with
            | some tc =>
              match _extract_first_json_object
                  (pyStrip (st2.content ++ st2.pendingRaw)) with
              | some toolJson => (markTool st2 tc toolJson, rest, .toolDetected)
              | none => processLines cfg (debounce tArr st2) rest
            | none => processLines cfg (debounce tArr st2) rest
          else processLines cfg (debounce tArr st2) rest

/-- Recording of the prompt the attempt sends: the ghost list gets the
attempt index, the assembler's base prompt of the iteration and the prompt
the consumer actually posts. -/
def promptRecord (st : StreamSt) (bp : Str) : StreamSt :=
  { st with
    sentPrompts := st.sentPrompts ++ [(st.attempt, bp, buildPrompt bp st.attempt)] }

/-- The state change taken on a retried transient failure (lines 311-326):
bump the attempt counter, remember the error, count the retry. -/
def retryState (st : StreamSt) (msg : Str) : StreamSt :=
  { st with
    attempt := st.attempt + 1
    lastErr := some msg
    retries := st.retries + 1 }

/-- The attempt loop (lines 172-335): check cancellation, build and record
the prompt, then follow the scripted connection outcome — transient failures
retry up to two times past the initial attempt, the loading status polls
without consuming an attempt until its fixed deadline, other failures are
fatal; consumed lines stream through processLines.  Returns the state at
loop exit; none only if the finite script runs out while the loop would
continue. -/
def streamLoop (cfg : StreamCfg) : StreamSt → List ConnScript → Option StreamSt
  | st, script =>
    let p := checkCancel cfg st
    if p.1 then some { p.2 with wasCancelled := true }
    else
      match script with
      | [] => none
      | sc :: srest =>
        let st2 := promptRecord p.2 sc.basePrompt
        match sc.conn with
        | .postFail transient msg =>
          let q := checkCancel cfg (flush_pending st2)
          if q.1 then some { q.2 with wasCancelled := true }
          else if transient && q.2.attempt < 2 then
            streamLoop cfg (retryState q.2 msg) srest
          else some { q.2 with lastErr := some msg }
        | .loading wall =>
          let q := checkCancel cfg st2
          if q.1 then some { q.2 with wasCancelled := true }
          else if cfg.startWall + 180000 < wall then
            let q2 := checkCancel cfg (flush_pending q.2)
            if q2.1 then some { q2.2 with wasCancelled := true }
            else some { q2.2 with lastErr := some loadingTimeoutMsg }
          else streamLoop cfg q.2 srest
        | .httpError status detail =>
          let q := checkCancel cfg (flush_pending st2)
          if q.1 then some { q.2 with wasCancelled := true }
          else some { q.2 with lastErr := some (httpErrorMsg status detail) }
        | .ok lines endr =>
          let r := processLines cfg st2 lines
          match r.2.2 with
          | .cancelledLoop => some (flush_pending r.1)
          | .toolDetected => some (flush_pending r.1)
          | .finishedLines =>
            match endr with
            | .done => some (flush_pending r.1)
            | .fail transient msg =>
              let q := checkCancel cfg (flush_pending r.1)
              if q.1 then some { q.2 with wasCancelled := true }
              else if transient && q.2.attempt < 2 then
                streamLoop cfg (retryState q.2 msg) srest
              else some { q.2 with lastErr := some msg }

/-- The outcome dictionary of one run (lines 344-352). -/
structure StreamOutcome where
  was_cancelled : Bool
  error : Option Str
  ttft : Option Time
  gen_seconds : Time
  chars : Nat
  tokens : Nat
deriving DecidableEq, Repr

/-- Everything observable from one run: the outcome, the final message
state after the last flush, and the amounts added to the session stats. -/
structure RunOut where
  outcome : StreamOutcome
  finalSt : StreamSt
  sessionTokensAdded : Nat
  sessionGenMsAdded : Time
deriving DecidableEq, Repr

/-- The initial state of a run. -/
def initialStreamSt : StreamSt :=
  { content := []
    displayRaw := []
    pendingRaw := []
    pendingDisplay := []
    chars := 0
    firstTok := none
    lastFlush := 0
    attempt := 0
    lastErr := none
    ticks := 0
    sawTool := false
    toolRaw := none
    wasCancelled := false
    consumedRaw := []
    sentPrompts := []
    retries := 0 }

/-- One full run of stream_completion_into over a finite script: the
attempt loop followed by the end-of-run metrics (lines 337-352) — duration
from first token (or start) feeding the session generation-time stats, the
outcome's gen_seconds from start to end, the floored token estimate with
minimum one when any characters arrived, and a final flush of whatever is
still buffered. -/
def runStream (cfg : StreamCfg) (script : List ConnScript) : Option RunOut :=
  match streamLoop cfg initialStreamSt script with
  | none => none
  | some st =>
    let genMs : Time := max 0 (cfg.endTime - st.firstTok.getD cfg.startTime)
    let cpt : Nat := if cfg.charsPerToken = 0 then 4 else cfg.charsPerToken
    let tokens : Nat := if st.chars = 0 then 0 else max 1 (st.chars / cpt)
    some {
      outcome := {
        was_cancelled := st.wasCancelled
        error := if st.lastErr.isSome && !st.wasCancelled then st.lastErr else none
        ttft := st.firstTok.map (fun ft => ft - cfg.startTime)
        gen_seconds := cfg.endTime - cfg.startTime
        chars := st.chars
        tokens := tokens }
      finalSt := flush_pending st
      sessionTokensAdded := tokens
      sessionGenMsAdded := genMs }

/-- The 9-round script of the C2 scenario. -/
def c2Round : RoundResult :=
  { error := none, was_cancelled := false,
    rawOut := "\x7b\"tool\":\"web_search\",\"args\":\x7b\"query\":\"q\"\x7d\x7d".toList }

/-- The trace of candidates tried by the backup scan, in order. -/
def bakTrace (path : Str) : Nat → Nat → List (Str × Bool)
  | _, 0 => []
  | n, k + 1 => (bakCandidate path n, false) :: bakTrace path (n + 1) k

/-- The store of the C9 witness: the target and its first backup name both
exist. -/
def c9fs : FileSys :=
  [("a.txt".toList, "old".toList), ("a.txt.bak".toList, "b0".toList)]

/-- The store of the C10 witness. -/
def c10fs : FileSys := [("t.txt".toList, "old".toList)]

/-- The facts carried by the line loop, stated for a run from st whose
observables are compared against a state st0: the loop preserves the
equality of message-plus-buffer with the consumed ghost except on a
detection (which sets the tool flag), cancellation exits set the cancelled
flag and nothing else does, and the attempt bookkeeping is untouched. -/
def PLRel (cfg : StreamCfg) (st0 st : StreamSt) (lines : List LineEvent) :
    Prop :=
  ((processLines cfg st lines).2.2 ≠ .toolDetected →
    (processLines cfg st lines).1.sawTool = st0.sawTool ∧
    (st0.content ++ st0.pendingRaw = st0.consumedRaw →
      (processLines cfg st lines).1.content
        ++ (processLines cfg st lines).1.pendingRaw
        = (processLines cfg st lines).1.consumedRaw)) ∧
  ((processLines cfg st lines).2.2 = .toolDetected →
    (processLines cfg st lines).1.sawTool = true) ∧
  ((processLines cfg st lines).2.2 = .cancelledLoop →
    (processLines cfg st lines).1.wasCancelled = true) ∧
  ((processLines cfg st lines).2.2 ≠ .cancelledLoop →
    (processLines cfg st lines).1.wasCancelled = st0.wasCancelled) ∧
  (processLines cfg st lines).1.attempt = st0.attempt ∧
  (processLines cfg st lines).1.retries = st0.retries ∧
  (processLines cfg st lines).1.sentPrompts = st0.sentPrompts ∧
  (processLines cfg st lines).1.lastErr = st0.lastErr ∧
  (st0.chars = st0.consumedRaw.length →
    (processLines cfg st lines).1.chars
      = (processLines cfg st lines).1.consumedRaw.length)

/-- A script free of transient failures: no retriable connection outcome
appears. -/
def connTransientFree : ConnEvent → Bool
  | .postFail transient _ => !transient
  | .ok _ (.fail transient _) => !transient
  | _ => true

/-- No connection of the script fails transiently. -/
def noTransientScript : List ConnScript → Bool
  | [] => true
  | sc :: rest => connTransientFree sc.conn && noTransientScript rest

/-- The state invariant of the attempt loop: tool-free states carry the
consumed text split between message and buffer; the character count counts
the consumed text; the retry count matches the attempt index, capped at 2;
and every recorded prompt was built by buildPrompt from its recorded base
at an attempt index of at most 2. -/
def StInv (st : StreamSt) : Prop :=
  (st.sawTool = false → st.content ++ st.pendingRaw = st.consumedRaw) ∧
  st.chars = st.consumedRaw.length ∧
  st.retries = st.attempt ∧
  st.attempt ≤ 2 ∧
  (∀ tr ∈ st.sentPrompts, tr.1 ≤ 2 ∧ tr.2.2 = buildPrompt tr.2.1 tr.1)

/-- Fallback result used to name concrete runs. -/
def defaultRunOut : RunOut :=
  { outcome := {
      was_cancelled := false
      error := none
      ttft := none
      gen_seconds := 0
      chars := 0
      tokens := 0 }
    finalSt := initialStreamSt
    sessionTokensAdded := 0
    sessionGenMsAdded := 0 }

/-- Configuration of the C3 witness: cancellation set from the third check
on. -/
def c3cfg : StreamCfg :=
  { startTime := 0
    startWall := 0
    endTime := 10
    charsPerToken := 4
    stripEmoji := false
    cancelAt := some 2 }

/-- Script of the C3 witness: one live connection whose second chunk is
never consumed because the cancellation lands first. -/
def c3script : List ConnScript :=
  [⟨"P".toList,
    .ok [.chunk 1 "Hello, wo".toList, .chunk 2 "XX".toList] .done⟩]

/-- The concrete C3 run. -/
def c3run : RunOut := (runStream c3cfg c3script).getD defaultRunOut

/-- Configuration of the C7 witness. -/
def c7cfg : StreamCfg :=
  { startTime := 0
    startWall := 0
    endTime := 10
    charsPerToken := 4
    stripEmoji := false
    cancelAt := none }

/-- Script of the C7 witness: a transient read failure after partial
output, then a successful reconnect completing the text. -/
def c7script : List ConnScript :=
  [⟨"P\nASSISTANT:".toList,
    .ok [.chunk 1 "Hello, wo".toList] (.fail true "read err".toList)⟩,
   ⟨"P\nASSISTANT:".toList, .ok [.chunk 5 "rld!".toList] .done⟩]

/-- The concrete C7 run. -/
def c7run : RunOut := (runStream c7cfg c7script).getD defaultRunOut

/-- Configuration of the C8 runs. -/
def c8cfg : StreamCfg :=
  { startTime := 0
    startWall := 0
    endTime := 10
    charsPerToken := 4
    stripEmoji := false
    cancelAt := none }

/-- Script of the C8 runs: the first token arrives at time 2. -/
def c8script : List ConnScript :=
  [⟨"P".toList, .ok [.chunk 2 "Hi!!".toList] .done⟩]

/-- The concrete C8 run. -/
def c8run : RunOut := (runStream c8cfg c8script).getD defaultRunOut

/-- The raw text carried by a list of stream lines, in order. -/
def rawsOf : List LineEvent → Str
  | [] => []
  | .blank :: rest => rawsOf rest
  | .nondata :: rest => rawsOf rest
  | .chunk _ c :: rest => c ++ rawsOf rest

/-- No prefix of the appends starting from the given combined content
triggers the detection condition. -/
def detectFree (base : Str) : List LineEvent → Bool
  | [] => true
  | .blank :: rest => detectFree base rest
  | .nondata :: rest => detectFree base rest
  | .chunk _ c :: rest =>
    if c = [] then detectFree base rest
    else !detectCond (base ++ c) && detectFree (base ++ c) rest

/-- What interception means for a run whose detection lands on the chunk
after the prefix l1: the loop exits with toolDetected leaving the remaining
lines unconsumed, the grammar parser and the extractor succeed on the
combined content, the final state records the raw call text, shows the
status line in place of the buffered text, has both buffers discarded, and
consumed exactly the text up to and including the detecting chunk. -/
def InterceptSpec (cfg : StreamCfg) (st : StreamSt) (l1 : List LineEvent)
    (t : Time) (c : Str) (l2 : List LineEvent) : Prop :=
  ∃ tc raw st',
    processLines cfg st (l1 ++ .chunk t c :: l2)
      = (st', l2, .toolDetected) ∧
    parse_tool_call (pyStrip
      (st.content ++ st.pendingRaw ++ (rawsOf l1 ++ c))) = some tc ∧
    _extract_first_json_object (pyStrip
      (st.content ++ st.pendingRaw ++ (rawsOf l1 ++ c))) = some raw ∧
    st'.toolRaw = some raw ∧
    st'.content = tool_status_text_for (toolName tc) ∧
    st'.displayRaw = tool_status_text_for (toolName tc) ∧
    st'.pendingRaw = [] ∧
    st'.pendingDisplay = [] ∧
    st'.sawTool = true ∧
    st'.consumedRaw = st.consumedRaw ++ (rawsOf l1 ++ c)

/-- Configuration of the C6 witness: no cancellation. -/
def c6cfg : StreamCfg :=
  { startTime := 0
    startWall := 0
    endTime := 10
    charsPerToken := 4
    stripEmoji := false
    cancelAt := none }

/-- The detection-free prefix of the C6 witness. -/
def c6l1 : List LineEvent := [.chunk 1 "I will list the files. ".toList]

/-- The detecting chunk of the C6 witness. -/
def c6chunk : Str :=
  "\x7b\"tool\":\"fs_list\",\"args\":\x7b\x7d\x7d".toList

/-- Lines after the detection, which must never be consumed. -/
def c6l2 : List LineEvent := [.chunk 3 "NEVER SHOWN".toList]

/-- Joining a list of JSON strings succeeds and intercalates newline. -/
theorem joinedStrList_map_str (ls : List Str) :
    joinedStrList (ls.map Json.str) = some (List.intercalate ['\n'] ls) := by
  have h : strListOf (ls.map Json.str) = some ls := by
    induction ls with
    | nil => rfl
    | cons hd tl ih => simp only [List.map_cons, strListOf, ih]
  unfold joinedStrList
  rw [h]

/-- C4: numeric arguments are clamped to their declared bounds with the
declared defaults, and fs_write accepts string or list-of-strings content and
requires a non-empty path, rejecting any other shape.
Bounds: web_search.count in [1,10] default 5; fs_list.limit in [1,1000]
default 200; fs_read.max_bytes in [1,5000000] default 200000;
fs_search.limit in [1,500] default 50. -/
theorem C4_argument_clamping :
    (∀ (q : Str) (c : Int), validateToolCall (webSearchObj q c) =
      if pyStrip q = [] then none
      else some (.web_search (pyStrip q) (max 1 (min 10 c)))) ∧
    (∀ q : Str, validateToolCall (webSearchObjNoCount q) =
      if pyStrip q = [] then none else some (.web_search (pyStrip q) 5)) ∧
    (∀ lim : Int, validateToolCall (fsListObj lim) =
      some (.fs_list "x".toList false (max 1 (min 1000 lim)))) ∧
    (validateToolCall fsListObjNoLimit = some (.fs_list "x".toList false 200)) ∧
    (∀ mb : Int, validateToolCall (fsReadObj mb) =
      some (.fs_read "x".toList (max 1 (min 5000000 mb)))) ∧
    (validateToolCall fsReadObjNoMax = some (.fs_read "x".toList 200000)) ∧
    (∀ lim : Int, validateToolCall (fsSearchObj lim) =
      some (.fs_search "q".toList ".".toList (max 1 (min 500 lim)) false false)) ∧
    (validateToolCall fsSearchObjNoLimit =
      some (.fs_search "q".toList ".".toList 50 false false)) ∧
    (∀ (p c : Str), validateToolCall (fsWriteObj p (Json.str c)) =
      if pyStrip p = [] then none else some (.fs_write (pyStrip p) c true)) ∧
    (∀ (p : Str) (ls : List Str),
      validateToolCall (fsWriteObj p (Json.arr (ls.map Json.str))) =
      if pyStrip p = [] then none
      else some (.fs_write (pyStrip p) (List.intercalate ['\n'] ls) true)) ∧
    (∀ n : Int, validateToolCall (fsWriteObj "x".toList (Json.num n)) = none) := by
  refine ⟨fun q c => rfl, fun q => rfl, fun lim => rfl, rfl, fun mb => rfl, rfl,
    fun lim => rfl, rfl, fun p c => rfl, fun p ls => ?_, fun n => rfl⟩
  show (if pyStrip p = [] then none
    else match joinedStrList (ls.map Json.str) with
    | none => none
    | some s => some (ToolCall.fs_write (pyStrip p) s true)) = _
  rw [joinedStrList_map_str]

/-- Outside any string literal the escape loop copies its input. -/
theorem escNlAux_out_append (a rest : Str) (ha : ∀ c ∈ a, c ≠ '"') :
    escNlAux false false (a ++ rest) = a ++ escNlAux false false rest := by
  induction a with
  | nil => rfl
  | cons c t ih =>
    have hc : c ≠ '"' := ha c (List.mem_cons_self c t)
    have ht : ∀ d ∈ t, d ≠ '"' := fun d hd => ha d (List.mem_cons_of_mem c hd)
    have h1 : escNlAux false false ((c :: t) ++ rest)
        = c :: escNlAux false false (t ++ rest) := by
      simp only [List.cons_append, escNlAux, if_neg hc]
      rfl
    rw [h1, ih ht, List.cons_append]

/-- Inside a string literal holding neither quotes nor backslashes, the loop
rewrites CR and LF to backslash-n, leaves everything else, and resumes the
outside state after the closing quote. -/
theorem escNlAux_in_string (mid b : Str) (hq : ∀ c ∈ mid, c ≠ '"')
    (hb : ∀ c ∈ mid, c ≠ '\\') :
    escNlAux true false (mid ++ '"' :: b) =
      convRawNl mid ++ '"' :: escNlAux false false b := by
  induction mid with
  | nil => rfl
  | cons c t ih =>
    have hc : c ≠ '"' := hq c (List.mem_cons_self c t)
    have hc2 : c ≠ '\\' := hb c (List.mem_cons_self c t)
    have ht : ∀ d ∈ t, d ≠ '"' := fun d hd => hq d (List.mem_cons_of_mem c hd)
    have ht2 : ∀ d ∈ t, d ≠ '\\' := fun d hd => hb d (List.mem_cons_of_mem c hd)
    by_cases hnl : c = '\r' || c = '\n'
    · have h1 : escNlAux true false ((c :: t) ++ '"' :: b)
          = '\\' :: 'n' :: escNlAux true false (t ++ '"' :: b) := by
        simp only [List.cons_append, escNlAux, if_neg hc2, if_neg hc, if_pos hnl]
        rfl
      rw [h1, ih ht ht2]
      show _ = ((if c = '\r' || c = '\n' then ['\\', 'n'] else [c]) ++ convRawNl t)
        ++ '"' :: escNlAux false false b
      rw [if_pos hnl]
      rfl
    · have h1 : escNlAux true false ((c :: t) ++ '"' :: b)
          = c :: escNlAux true false (t ++ '"' :: b) := by
        simp only [List.cons_append, escNlAux, if_neg hc2, if_neg hc, if_neg hnl]
        rfl
      rw [h1, ih ht ht2]
      show _ = ((if c = '\r' || c = '\n' then ['\\', 'n'] else [c]) ++ convRawNl t)
        ++ '"' :: escNlAux false false b
      rw [if_neg hnl]
      rfl

/-- C5: when the strict parse of the extracted object fails, one repair pass
rewrites literal CR/LF characters occurring inside JSON string literals to
the escaped sequence backslash-n (characters outside string literals are
untouched), the parse is retried exactly once with no further repair, and an
fs_write content value holding a raw newline parses with the newline
preserved in the resulting content. -/
theorem C5_newline_repair :
    (parse_tool_call rawNewlineScenario =
      some (.fs_write "a.txt".toList "l1\nl2".toList true)) ∧
    (∀ s : Str, (∀ c ∈ s, c ≠ '"') →
      _escape_raw_newlines_in_json_strings s = s) ∧
    (∀ a mid b : Str, (∀ c ∈ a, c ≠ '"') → (∀ c ∈ mid, c ≠ '"') →
      (∀ c ∈ mid, c ≠ '\\') →
      _escape_raw_newlines_in_json_strings (a ++ ('"' :: (mid ++ ('"' :: b)))) =
        a ++ ('"' :: (convRawNl mid ++ ('"' :: escNlAux false false b)))) ∧
    (∀ (text raw : Str), _extract_first_json_object (pyStrip text) = some raw →
      jsonLoads raw = none →
      jsonLoads (_escape_raw_newlines_in_json_strings raw) = none →
      parse_tool_call text = none) ∧
    (∀ (text raw : Str) (j : Json),
      _extract_first_json_object (pyStrip text) = some raw →
      jsonLoads raw = none →
      _escape_raw_newlines_in_json_strings raw ≠ raw →
      jsonLoads (_escape_raw_newlines_in_json_strings raw) = some j →
      parse_tool_call text = validateToolCall j) := by
  refine ⟨by decide, ?_, ?_, ?_, ?_⟩
  · intro s hs
    cases s with
    | nil => rfl
    | cons c t =>
      have h := escNlAux_out_append (c :: t) [] hs
      rw [List.append_nil] at h
      show escNlAux false false (c :: t) = c :: t
      simpa [escNlAux] using h
  · intro a mid b ha hq hb
    have hne : a ++ '"' :: (mid ++ '"' :: b) ≠ [] := by
      intro h
      exact absurd (List.append_eq_nil.mp h).2 (by simp)
    unfold _escape_raw_newlines_in_json_strings
    rw [if_neg hne, escNlAux_out_append a ('"' :: (mid ++ '"' :: b)) ha]
    have hstep : escNlAux false false ('"' :: (mid ++ '"' :: b))
        = '"' :: escNlAux true false (mid ++ '"' :: b) := by
      simp [escNlAux]
    rw [hstep, escNlAux_in_string mid b hq hb]
  · intro text raw hext hfail hfail2
    unfold parse_tool_call
    rw [hext]
    simp only [hfail]
    by_cases h : _escape_raw_newlines_in_json_strings raw = raw
    · simp only [if_pos h]
    · simp only [if_neg h, hfail2]
  · intro text raw j hext hfail hne hrep
    unfold parse_tool_call
    rw [hext]
    simp only [hfail, if_neg hne, hrep]

/-- Witness for C5: a concrete balanced object that fails the strict parse
and still fails after the single repair pass yields no tool call. -/
theorem C5_newline_repair_witness :
    parse_tool_call unrepairableScenario = none :=
  C5_newline_repair.2.2.2.1 unrepairableScenario unrepairableScenario
    (by decide) (by rfl) (by rfl)

/-- Scanner step on a plain character outside a string. -/
theorem braceScan_plain (c : Char) (hq : c ≠ '"') (hob : c ≠ '{') (hcb : c ≠ '}')
    (d : Int) (t acc : Str) :
    braceScanAux false false d (c :: t) acc = braceScanAux false false d t (c :: acc) := by
  simp only [braceScanAux, if_neg hq, if_neg hob, if_neg hcb]

/-- Scanner step opening a string literal. -/
theorem braceScan_quote (d : Int) (t acc : Str) :
    braceScanAux false false d ('"' :: t) acc = braceScanAux true false d t ('"' :: acc) := by
  simp [braceScanAux]

/-- Scanner step on an opening brace outside a string. -/
theorem braceScan_open (d : Int) (t acc : Str) :
    braceScanAux false false d ('{' :: t) acc
      = braceScanAux false false (d + 1) t ('{' :: acc) := by
  simp [braceScanAux]

/-- Scanner step on a closing brace outside a string: return on depth one,
otherwise continue one level up. -/
theorem braceScan_close (d : Int) (t acc : Str) :
    braceScanAux false false d ('}' :: t) acc
      = if d - 1 = 0 then some (('}' :: acc).reverse)
        else braceScanAux false false (d - 1) t ('}' :: acc) := by
  simp [braceScanAux]

/-- A run of plain characters passes through the scanner unchanged. -/
theorem braceScan_plain_run (run : Str) (h : ∀ c ∈ run, plainChar c = true)
    (d : Int) (t acc : Str) :
    braceScanAux false false d (run ++ t) acc
      = braceScanAux false false d t (run.reverse ++ acc) := by
  induction run generalizing acc with
  | nil => rfl
  | cons c r ih =>
    have hc : plainChar c = true := h c (List.mem_cons_self c r)
    have hr : ∀ x ∈ r, plainChar x = true := fun x hx => h x (List.mem_cons_of_mem c hx)
    have hc3 : ¬(c = '"' || c = '{' || c = '}') = true := by
      simpa [plainChar] using hc
    push_neg at hc3
    rw [List.cons_append,
      braceScan_plain c (by simpa using fun h2 => hc3 (by simp [h2]))
        (by intro h2; exact hc3 (by simp [h2])) (by intro h2; exact hc3 (by simp [h2])),
      ih hr]
    simp

/-- JSON whitespace characters are plain for the scanner. -/
theorem isJsonWs_plain (c : Char) (h : isJsonWs c = true) : plainChar c = true := by
  have hc : c = ' ' ∨ c = '\t' ∨ c = '\n' ∨ c = '\r' := by
    simpa [isJsonWs, or_assoc] using h
  rcases hc with h1 | h1 | h1 | h1 <;> subst h1 <;> decide

/-- Skipping whitespace commutes with the scanner. -/
theorem braceScan_skipWs (s : Str) (d : Int) (acc : Str) :
    braceScanAux false false d s acc
      = braceScanAux false false d (skipWs s)
          ((s.takeWhile isJsonWs).reverse ++ acc) := by
  have hsplit : s = s.takeWhile isJsonWs ++ s.dropWhile isJsonWs :=
    (List.takeWhile_append_dropWhile isJsonWs s).symm
  have hplain : ∀ c ∈ s.takeWhile isJsonWs, plainChar c = true := by
    intro c hc
    exact isJsonWs_plain c (List.mem_takeWhile_imp hc)
  calc braceScanAux false false d s acc
      = braceScanAux false false d (s.takeWhile isJsonWs ++ s.dropWhile isJsonWs) acc := by
        rw [← hsplit]
    _ = braceScanAux false false d (s.dropWhile isJsonWs)
          ((s.takeWhile isJsonWs).reverse ++ acc) :=
        braceScan_plain_run _ hplain d _ acc

/-- The scanner consumes a parsed string-literal body, ending outside the
string at the same depth, whatever the depth is. -/
theorem braceScan_stringBody : ∀ (n : Nat) (s : Str), s.length ≤ n →
    ∀ (con rest : Str), parseStringBody s = some (con, rest) →
    ∃ raw, s = raw ++ rest ∧ ∀ (d : Int) (acc : Str),
      braceScanAux true false d s acc
        = braceScanAux false false d rest (raw.reverse ++ acc) := by
  intro n
  induction n with
  | zero =>
    intro s hlen con rest h
    have hnil : s = [] := List.length_eq_zero.mp (Nat.le_zero.mp hlen)
    rw [hnil] at h
    simp [parseStringBody] at h
  | succ n ih =>
    intro s hlen con rest h
    cases s with
    | nil => simp [parseStringBody] at h
    | cons c t =>
      by_cases hq : c = '"'
      · subst hq
        unfold parseStringBody at h
        simp only [if_pos rfl] at h
        have hrest : rest = t := (congrArg Prod.snd (Option.some.inj h)).symm
        subst hrest
        refine ⟨['"'], rfl, fun d acc => ?_⟩
        simp [braceScanAux]
      · by_cases hb : c = '\\'
        · subst hb
          cases t with
          | nil =>
            have hred : parseStringBody ['\\'] = none := rfl
            rw [hred] at h
            exact Option.noConfusion h
          | cons e t2 =>
            have hred : parseStringBody ('\\' :: e :: t2)
                = (match jsonEscape? e with
                   | none => none
                   | some d =>
                     match parseStringBody t2 with
                     | none => none
                     | some (s, r) => some (d :: s, r)) := rfl
            rw [hred] at h
            cases hje : jsonEscape? e with
            | none => rw [hje] at h; exact Option.noConfusion h
            | some dd =>
              rw [hje] at h
              cases hps : parseStringBody t2 with
              | none => rw [hps] at h; exact Option.noConfusion h
              | some pr =>
                obtain ⟨s2, r2⟩ := pr
                rw [hps] at h
                have hrest : rest = r2 := (congrArg Prod.snd (Option.some.inj h)).symm
                subst hrest
                have hlen2 : t2.length ≤ n := by
                  simp only [List.length_cons] at hlen
                  omega
                obtain ⟨raw2, hsplit, hsim⟩ := ih t2 hlen2 s2 rest hps
                refine ⟨'\\' :: e :: raw2, by rw [hsplit]; rfl, fun d acc => ?_⟩
                have s1 : braceScanAux true false d ('\\' :: e :: t2) acc
                    = braceScanAux true true d (e :: t2) ('\\' :: acc) := by
                  simp [braceScanAux]
                have s2h : braceScanAux true true d (e :: t2) ('\\' :: acc)
                    = braceScanAux true false d t2 (e :: '\\' :: acc) := by
                  simp [braceScanAux]
                rw [s1, s2h, hsim d (e :: '\\' :: acc)]
                simp
        · unfold parseStringBody at h
          simp only [if_neg hq, if_neg hb] at h
          by_cases hctl : c.toNat < 32
          · rw [if_pos hctl] at h; simp at h
          · rw [if_neg hctl] at h
            cases hps : parseStringBody t with
            | none => rw [hps] at h; exact Option.noConfusion h
            | some pr =>
              obtain ⟨s2, r2⟩ := pr
              rw [hps] at h
              have hrest : rest = r2 := (congrArg Prod.snd (Option.some.inj h)).symm
              subst hrest
              have hlen2 : t.length ≤ n := by
                simp only [List.length_cons] at hlen
                omega
              obtain ⟨raw2, hsplit, hsim⟩ := ih t hlen2 s2 rest hps
              refine ⟨c :: raw2, by rw [hsplit]; rfl, fun d acc => ?_⟩
              have s1 : braceScanAux true false d (c :: t) acc
                  = braceScanAux true false d t (c :: acc) := by
                simp only [braceScanAux, if_neg hb, if_neg hq]
              rw [s1, hsim d (c :: acc)]
              simp

/-- Membership characterisation of plain characters. -/
theorem plainChar_spec (c : Char) (h1 : c ≠ '"') (h2 : c ≠ '{') (h3 : c ≠ '}') :
    plainChar c = true := by
  simp [plainChar, h1, h2, h3]

/-- Decimal digits are plain for the scanner. -/
theorem digit_plain (c : Char) (h : c.isDigit = true) : plainChar c = true := by
  by_contra hp
  have h1 : c = '"' ∨ c = '{' ∨ c = '}' := by
    by_contra h2
    push_neg at h2
    exact hp (plainChar_spec c h2.1 h2.2.1 h2.2.2)
  rcases h1 with h1 | h1 | h1 <;> subst h1 <;> exact absurd h (by decide)

/-- The numeral parser consumes only plain characters. -/
theorem parseNumTail_consumed (neg : Bool) (l1 : Str) (v : Int) (rest : Str)
    (h : parseNumTail neg l1 = some (v, rest)) :
    ∃ raw, l1 = raw ++ rest ∧ ∀ c ∈ raw, plainChar c = true := by
  unfold parseNumTail at h
  by_cases hds : l1.takeWhile (fun c => c.isDigit) = []
  · rw [if_pos hds] at h
    exact Option.noConfusion h
  · rw [if_neg hds] at h
    by_cases hlz : (2 ≤ (l1.takeWhile (fun c => c.isDigit)).length
        && ((l1.takeWhile (fun c => c.isDigit)).head? = some '0' : Bool)) = true
    · rw [if_pos hlz] at h
      exact Option.noConfusion h
    · rw [if_neg hlz] at h
      have hrest : rest = l1.dropWhile (fun c => c.isDigit) :=
        (congrArg Prod.snd (Option.some.inj h)).symm
      subst hrest
      refine ⟨l1.takeWhile (fun c => c.isDigit),
        (List.takeWhile_append_dropWhile _ _).symm, ?_⟩
      intro c hc
      exact digit_plain c (List.mem_takeWhile_imp hc)

/-- Consumed-characters lemma for the full numeral parser. -/
theorem parseNumber_consumed (s : Str) (v : Int) (rest : Str)
    (h : parseNumber s = some (v, rest)) :
    ∃ raw, s = raw ++ rest ∧ ∀ c ∈ raw, plainChar c = true := by
  unfold parseNumber at h
  split at h
  · rename_i t
    obtain ⟨raw, hsp, hpl⟩ := parseNumTail_consumed true t v rest h
    refine ⟨'-' :: raw, by rw [List.cons_append, ← hsp], ?_⟩
    intro c hc
    rcases List.mem_cons.mp hc with h1 | h1
    · subst h1; decide
    · exact hpl c h1
  · exact parseNumTail_consumed false _ v rest h

/-- Splitting a list at its whitespace prefix. -/
theorem skipWs_split (t : Str) : t.takeWhile isJsonWs ++ skipWs t = t :=
  List.takeWhile_append_dropWhile isJsonWs t

/-- Unfolding of parseValue at a cons cell. -/
theorem parseValue_succ_cons (fuel : Nat) (c : Char) (t : Str) :
    parseValue (fuel + 1) (c :: t) =
      (if c = '{' then
        match skipWs t with
        | '}' :: r => some (.obj [], r)
        | l1 =>
          match parseMembers fuel l1 with
          | none => none
          | some (ms, r) => some (.obj ms, r)
      else if c = '[' then
        match skipWs t with
        | ']' :: r => some (.arr [], r)
        | l1 =>
          match parseElems fuel l1 with
          | none => none
          | some (vs, r) => some (.arr vs, r)
      else if c = '"' then
        match parseStringBody t with
        | none => none
        | some (s, r) => some (.str s, r)
      else if c = 't' then
        if "rue".toList.isPrefixOf t then some (.bool true, t.drop 3) else none
      else if c = 'f' then
        if "alse".toList.isPrefixOf t then some (.bool false, t.drop 4) else none
      else if c = 'n' then
        if "ull".toList.isPrefixOf t then some (.null, t.drop 3) else none
      else if c = '-' || c.isDigit then
        match parseNumber (c :: t) with
        | none => none
        | some (v, r) => some (.num v, r)
      else none) := rfl

/-- Unfolding of parseMembers at an opening quote. -/
theorem parseMembers_succ_quote (fuel : Nat) (t : Str) :
    parseMembers (fuel + 1) ('"' :: t) =
      (match parseStringBody t with
      | none => none
      | some (k, r1) =>
        match skipWs r1 with
        | ':' :: r2 =>
          match parseValue fuel (skipWs r2) with
          | none => none
          | some (v, r3) =>
            match skipWs r3 with
            | ',' :: r4 =>
              match parseMembers fuel (skipWs r4) with
              | none => none
              | some (ms, r5) => some ((k, v) :: ms, r5)
            | '}' :: r4 => some ([(k, v)], r4)
            | _ => none
        | _ => none) := rfl

/-- parseMembers fails on anything not starting a string key. -/
theorem parseMembers_succ_other (fuel : Nat) (c : Char) (t : Str) (hc : c ≠ '"') :
    parseMembers (fuel + 1) (c :: t) = none := by
  unfold parseMembers
  split
  · rename_i t3 heq
    exact absurd (List.head_eq_of_cons_eq heq.symm) (fun h2 => hc h2.symm)
  · rfl

/-- Unfolding of parseElems at positive fuel. -/
theorem parseElems_succ (fuel : Nat) (l : Str) :
    parseElems (fuel + 1) l =
      (match parseValue fuel l with
      | none => none
      | some (v, r) =>
        match skipWs r with
        | ',' :: r2 =>
          match parseElems fuel (skipWs r2) with
          | none => none
          | some (vs, r3) => some (v :: vs, r3)
        | ']' :: r2 => some ([v], r2)
        | _ => none) := rfl

/-- Parse-scan simulation.  A parsed value is consumed by the scanner with no
early return and no net depth change; a parsed member list (which includes
the closing brace of its object) returns the accumulated text at depth one
and passes through to one level up at greater depths; a parsed element list
passes through at unchanged depth. -/
theorem scanSim : ∀ fuel : Nat,
    (∀ s v rest, parseValue fuel s = some (v, rest) →
      ∃ raw, s = raw ++ rest ∧ ∀ d : Int, 1 ≤ d → ∀ acc : Str,
        braceScanAux false false d s acc
          = braceScanAux false false d rest (raw.reverse ++ acc)) ∧
    (∀ s ms rest, parseMembers fuel s = some (ms, rest) →
      ∃ raw, s = raw ++ rest ∧ ∀ d : Int, 1 ≤ d → ∀ acc : Str,
        braceScanAux false false d s acc
          = (if d = 1 then some (acc.reverse ++ raw)
             else braceScanAux false false (d - 1) rest (raw.reverse ++ acc))) ∧
    (∀ s vs rest, parseElems fuel s = some (vs, rest) →
      ∃ raw, s = raw ++ rest ∧ ∀ d : Int, 1 ≤ d → ∀ acc : Str,
        braceScanAux false false d s acc
          = braceScanAux false false d rest (raw.reverse ++ acc)) := by
  intro fuel
  induction fuel with
  | zero =>
    exact ⟨fun s v rest h => Option.noConfusion h,
      fun s ms rest h => Option.noConfusion h,
      fun s vs rest h => Option.noConfusion h⟩
  | succ fuel ih =>
    obtain ⟨ihV, ihM, ihE⟩ := ih
    refine ⟨?_, ?_, ?_⟩
    · -- values
      intro s v rest h
      cases s with
      | nil => exact Option.noConfusion h
      | cons c t =>
        rw [parseValue_succ_cons] at h
        by_cases hob : c = '{'
        · subst hob
          rw [if_pos rfl] at h
          split at h
          · rename_i r heq
            have hrest : rest = r := (congrArg Prod.snd (Option.some.inj h)).symm
            subst hrest
            refine ⟨'{' :: (t.takeWhile isJsonWs ++ ['}']), ?_, ?_⟩
            · have h2 : t = t.takeWhile isJsonWs ++ ('}' :: rest) := by
                rw [← heq, skipWs_split]
              conv_lhs => rw [h2]
              simp
            · intro d hd acc
              rw [braceScan_open, braceScan_skipWs t (d + 1), heq, braceScan_close]
              rw [if_neg (by omega : ¬(d + 1 - 1 = 0))]
              have hdd : d + 1 - 1 = d := by omega
              rw [hdd]
              congr 1
              simp
          · rename_i hne
            cases hpm : parseMembers fuel (skipWs t) with
            | none => rw [hpm] at h; exact Option.noConfusion h
            | some pr =>
              obtain ⟨ms, r⟩ := pr
              rw [hpm] at h
              have hrest : rest = r := (congrArg Prod.snd (Option.some.inj h)).symm
              subst hrest
              obtain ⟨rawm, hsp, hsim⟩ := ihM (skipWs t) ms rest hpm
              refine ⟨'{' :: (t.takeWhile isJsonWs ++ rawm), ?_, ?_⟩
              · have h2 : t = t.takeWhile isJsonWs ++ (rawm ++ rest) := by
                  rw [← hsp, skipWs_split]
                conv_lhs => rw [h2]
                simp
              · intro d hd acc
                rw [braceScan_open, braceScan_skipWs t (d + 1),
                  hsim (d + 1) (by omega), if_neg (by omega : ¬(d + 1 = 1))]
                have hdd : d + 1 - 1 = d := by omega
                rw [hdd]
                congr 1
                simp
        · by_cases hab : c = '['
          · subst hab
            rw [if_neg hob, if_pos rfl] at h
            split at h
            · rename_i r heq
              have hrest : rest = r := (congrArg Prod.snd (Option.some.inj h)).symm
              subst hrest
              refine ⟨'[' :: (t.takeWhile isJsonWs ++ [']']), ?_, ?_⟩
              · have h2 : t = t.takeWhile isJsonWs ++ (']' :: rest) := by
                  rw [← heq, skipWs_split]
                conv_lhs => rw [h2]
                simp
              · intro d hd acc
                rw [braceScan_plain '[' (by decide) (by decide) (by decide),
                  braceScan_skipWs t d, heq,
                  braceScan_plain ']' (by decide) (by decide) (by decide)]
                congr 1
                simp
            · rename_i hne
              cases hpe : parseElems fuel (skipWs t) with
              | none => rw [hpe] at h; exact Option.noConfusion h
              | some pr =>
                obtain ⟨vs, r⟩ := pr
                rw [hpe] at h
                have hrest : rest = r := (congrArg Prod.snd (Option.some.inj h)).symm
                subst hrest
                obtain ⟨rawe, hsp, hsim⟩ := ihE (skipWs t) vs rest hpe
                refine ⟨'[' :: (t.takeWhile isJsonWs ++ rawe), ?_, ?_⟩
                · have h2 : t = t.takeWhile isJsonWs ++ (rawe ++ rest) := by
                    rw [← hsp, skipWs_split]
                  conv_lhs => rw [h2]
                  simp
                · intro d hd acc
                  rw [braceScan_plain '[' (by decide) (by decide) (by decide),
                    braceScan_skipWs t d, hsim d hd]
                  congr 1
                  simp
          · by_cases hq : c = '"'
            · subst hq
              rw [if_neg hob, if_neg hab, if_pos rfl] at h
              cases hps : parseStringBody t with
              | none => rw [hps] at h; exact Option.noConfusion h
              | some pr =>
                obtain ⟨cs, r⟩ := pr
                rw [hps] at h
                have hrest : rest = r := (congrArg Prod.snd (Option.some.inj h)).symm
                subst hrest
                obtain ⟨raws, hsp, hsim⟩ :=
                  braceScan_stringBody t.length t (le_refl _) cs rest hps
                refine ⟨'"' :: raws, by rw [List.cons_append, ← hsp], ?_⟩
                intro d hd acc
                rw [braceScan_quote, hsim d ('"' :: acc)]
                congr 1
                simp
            · by_cases htl : c = 't'
              · subst htl
                rw [if_neg hob, if_neg hab, if_neg hq, if_pos rfl] at h
                by_cases hpr : "rue".toList.isPrefixOf t = true
                · rw [if_pos hpr] at h
                  have hrest : rest = t.drop 3 :=
                    (congrArg Prod.snd (Option.some.inj h)).symm
                  subst hrest
                  obtain ⟨u, hu⟩ := List.isPrefixOf_iff_prefix.mp hpr
                  have hdrop : t.drop 3 = u := by
                    rw [← hu]
                    exact List.drop_left "rue".toList u
                  refine ⟨'t' :: "rue".toList, ?_, ?_⟩
                  · rw [hdrop]
                    conv_lhs => rw [← hu]
                    simp
                  · intro d hd acc
                    have hplain : ∀ x ∈ ('t' :: "rue".toList), plainChar x = true := by
                      decide
                    have h3 : ('t' :: t) = ('t' :: "rue".toList) ++ t.drop 3 := by
                      rw [hdrop]
                      conv_lhs => rw [← hu]
                      simp
                    rw [h3, braceScan_plain_run _ hplain d _ acc]
                · rw [if_neg hpr] at h
                  exact Option.noConfusion h
              · by_cases hfl : c = 'f'
                · subst hfl
                  rw [if_neg hob, if_neg hab, if_neg hq, if_neg htl, if_pos rfl] at h
                  by_cases hpr : "alse".toList.isPrefixOf t = true
                  · rw [if_pos hpr] at h
                    have hrest : rest = t.drop 4 :=
                      (congrArg Prod.snd (Option.some.inj h)).symm
                    subst hrest
                    obtain ⟨u, hu⟩ := List.isPrefixOf_iff_prefix.mp hpr
                    have hdrop : t.drop 4 = u := by
                      rw [← hu]
                      exact List.drop_left "alse".toList u
                    refine ⟨'f' :: "alse".toList, ?_, ?_⟩
                    · rw [hdrop]
                      conv_lhs => rw [← hu]
                      simp
                    · intro d hd acc
                      have hplain : ∀ x ∈ ('f' :: "alse".toList), plainChar x = true := by
                        decide
                      have h3 : ('f' :: t) = ('f' :: "alse".toList) ++ t.drop 4 := by
                        rw [hdrop]
                        conv_lhs => rw [← hu]
                        simp
                      rw [h3, braceScan_plain_run _ hplain d _ acc]
                  · rw [if_neg hpr] at h
                    exact Option.noConfusion h
                · by_cases hnl : c = 'n'
                  · subst hnl
                    rw [if_neg hob, if_neg hab, if_neg hq, if_neg htl, if_neg hfl,
                      if_pos rfl] at h
                    by_cases hpr : "ull".toList.isPrefixOf t = true
                    · rw [if_pos hpr] at h
                      have hrest : rest = t.drop 3 :=
                        (congrArg Prod.snd (Option.some.inj h)).symm
                      subst hrest
                      obtain ⟨u, hu⟩ := List.isPrefixOf_iff_prefix.mp hpr
                      have hdrop : t.drop 3 = u := by
                        rw [← hu]
                        exact List.drop_left "ull".toList u
                      refine ⟨'n' :: "ull".toList, ?_, ?_⟩
                      · rw [hdrop]
                        conv_lhs => rw [← hu]
                        simp
                      · intro d hd acc
                        have hplain : ∀ x ∈ ('n' :: "ull".toList), plainChar x = true := by
                          decide
                        have h3 : ('n' :: t) = ('n' :: "ull".toList) ++ t.drop 3 := by
                          rw [hdrop]
                          conv_lhs => rw [← hu]
                          simp
                        rw [h3, braceScan_plain_run _ hplain d _ acc]
                    · rw [if_neg hpr] at h
                      exact Option.noConfusion h
                  · by_cases hnum : (c = '-' || c.isDigit) = true
                    · rw [if_neg hob, if_neg hab, if_neg hq, if_neg htl, if_neg hfl,
                        if_neg hnl, if_pos hnum] at h
                      cases hpn : parseNumber (c :: t) with
                      | none => rw [hpn] at h; exact Option.noConfusion h
                      | some pr =>
                        obtain ⟨nv, r⟩ := pr
                        rw [hpn] at h
                        have hrest : rest = r :=
                          (congrArg Prod.snd (Option.some.inj h)).symm
                        subst hrest
                        obtain ⟨raw, hsp, hpl⟩ := parseNumber_consumed (c :: t) nv rest hpn
                        refine ⟨raw, hsp, ?_⟩
                        intro d hd acc
                        rw [hsp, braceScan_plain_run raw hpl d rest acc]
                    · rw [if_neg hob, if_neg hab, if_neg hq, if_neg htl, if_neg hfl,
                        if_neg hnl, if_neg hnum] at h
                      exact Option.noConfusion h
    · -- members
      intro s ms rest h
      cases s with
      | nil => exact Option.noConfusion h
      | cons c t =>
        by_cases hc : c = '"'
        · subst hc
          rw [parseMembers_succ_quote] at h
          cases hps : parseStringBody t with
          | none => rw [hps] at h; exact Option.noConfusion h
          | some pr =>
            obtain ⟨k, r1⟩ := pr
            rw [hps] at h
            obtain ⟨raws, hspS, hsimS⟩ :=
              braceScan_stringBody t.length t (le_refl _) k r1 hps
            have hm1 : (match skipWs r1 with
                | ':' :: r2 =>
                  match parseValue fuel (skipWs r2) with
                  | none => none
                  | some (v, r3) =>
                    match skipWs r3 with
                    | ',' :: r4 =>
                      match parseMembers fuel (skipWs r4) with
                      | none => none
                      | some (ms2, r5) => some ((k, v) :: ms2, r5)
                    | '}' :: r4 => some ([(k, v)], r4)
                    | _ => none
                | _ => none) = some (ms, rest) := h
            clear h
            split at hm1
            · rename_i r2 heq1
              cases hpv : parseValue fuel (skipWs r2) with
              | none => rw [hpv] at hm1; exact Option.noConfusion hm1
              | some pv =>
                obtain ⟨v, r3⟩ := pv
                rw [hpv] at hm1
                obtain ⟨rawv, hspV, hsimV⟩ := ihV (skipWs r2) v r3 hpv
                have e1 : r1 = r1.takeWhile isJsonWs ++ (':' :: r2) := by
                  conv_lhs => rw [← skipWs_split r1]
                  rw [heq1]
                have e2 : r2 = r2.takeWhile isJsonWs ++ (rawv ++ r3) := by
                  conv_lhs => rw [← skipWs_split r2]
                  rw [hspV]
                have hm2 : (match skipWs r3 with
                    | ',' :: r4 =>
                      match parseMembers fuel (skipWs r4) with
                      | none => none
                      | some (ms2, r5) => some ((k, v) :: ms2, r5)
                    | '}' :: r4 => some ([(k, v)], r4)
                    | _ => none) = some (ms, rest) := hm1
                clear hm1
                split at hm2
                · rename_i r4 heq2
                  cases hpm : parseMembers fuel (skipWs r4) with
                  | none => rw [hpm] at hm2; exact Option.noConfusion hm2
                  | some pm =>
                    obtain ⟨ms2, r5⟩ := pm
                    rw [hpm] at hm2
                    have hrest : rest = r5 :=
                      (congrArg Prod.snd (Option.some.inj hm2)).symm
                    subst hrest
                    obtain ⟨rawm, hspM, hsimM⟩ := ihM (skipWs r4) ms2 rest hpm
                    have e3 : r3 = r3.takeWhile isJsonWs ++ (',' :: r4) := by
                      conv_lhs => rw [← skipWs_split r3]
                      rw [heq2]
                    have e4 : r4 = r4.takeWhile isJsonWs ++ (rawm ++ rest) := by
                      conv_lhs => rw [← skipWs_split r4]
                      rw [hspM]
                    refine ⟨'"' :: (raws ++ (r1.takeWhile isJsonWs ++ (':' ::
                      (r2.takeWhile isJsonWs ++ (rawv ++ (r3.takeWhile isJsonWs ++ (',' ::
                      (r4.takeWhile isJsonWs ++ rawm)))))))), ?_, ?_⟩
                    · conv_lhs => rw [hspS, e1, e2, e3, e4]
                      simp
                    · intro d hd acc
                      rw [braceScan_quote, hsimS d ('"' :: acc),
                        braceScan_skipWs r1 d, heq1,
                        braceScan_plain ':' (by decide) (by decide) (by decide),
                        braceScan_skipWs r2 d, hsimV d hd,
                        braceScan_skipWs r3 d, heq2,
                        braceScan_plain ',' (by decide) (by decide) (by decide),
                        braceScan_skipWs r4 d, hsimM d hd]
                      by_cases hd1 : d = 1
                      · rw [if_pos hd1, if_pos hd1]
                        congr 1
                        simp
                      · rw [if_neg hd1, if_neg hd1]
                        congr 1
                        simp
                · rename_i r4 heq2
                  have hrest : rest = r4 :=
                    (congrArg Prod.snd (Option.some.inj hm2)).symm
                  subst hrest
                  have e3 : r3 = r3.takeWhile isJsonWs ++ ('}' :: rest) := by
                    conv_lhs => rw [← skipWs_split r3]
                    rw [heq2]
                  refine ⟨'"' :: (raws ++ (r1.takeWhile isJsonWs ++ (':' ::
                    (r2.takeWhile isJsonWs ++ (rawv ++ (r3.takeWhile isJsonWs ++ ['}'])))))),
                    ?_, ?_⟩
                  · conv_lhs => rw [hspS, e1, e2, e3]
                    simp
                  · intro d hd acc
                    rw [braceScan_quote, hsimS d ('"' :: acc),
                      braceScan_skipWs r1 d, heq1,
                      braceScan_plain ':' (by decide) (by decide) (by decide),
                      braceScan_skipWs r2 d, hsimV d hd,
                      braceScan_skipWs r3 d, heq2, braceScan_close]
                    by_cases hd1 : d = 1
                    · rw [if_pos (by omega : d - 1 = 0), if_pos hd1]
                      congr 1
                      simp
                    · rw [if_neg (by omega : ¬(d - 1 = 0)), if_neg hd1]
                      congr 1
                      simp
                · exact Option.noConfusion hm2
            · exact Option.noConfusion hm1
        · rw [parseMembers_succ_other fuel c t hc] at h
          exact Option.noConfusion h
    · -- elements
      intro s vs rest h
      rw [parseElems_succ] at h
      cases hpv : parseValue fuel s with
      | none => rw [hpv] at h; exact Option.noConfusion h
      | some pv =>
        obtain ⟨v, r⟩ := pv
        rw [hpv] at h
        obtain ⟨rawv, hspV, hsimV⟩ := ihV s v r hpv
        have he1 : (match skipWs r with
            | ',' :: r2 =>
              match parseElems fuel (skipWs r2) with
              | none => none
              | some (vs2, r3) => some (v :: vs2, r3)
            | ']' :: r2 => some ([v], r2)
            | _ => none) = some (vs, rest) := h
        clear h
        split at he1
        · rename_i r2 heq1
          cases hpe : parseElems fuel (skipWs r2) with
          | none => rw [hpe] at he1; exact Option.noConfusion he1
          | some pe =>
            obtain ⟨vs2, r3⟩ := pe
            rw [hpe] at he1
            have hrest : rest = r3 := (congrArg Prod.snd (Option.some.inj he1)).symm
            subst hrest
            obtain ⟨rawe, hspE, hsimE⟩ := ihE (skipWs r2) vs2 rest hpe
            have e1 : r = r.takeWhile isJsonWs ++ (',' :: r2) := by
              conv_lhs => rw [← skipWs_split r]
              rw [heq1]
            have e2 : r2 = r2.takeWhile isJsonWs ++ (rawe ++ rest) := by
              conv_lhs => rw [← skipWs_split r2]
              rw [hspE]
            refine ⟨rawv ++ (r.takeWhile isJsonWs ++ (',' ::
              (r2.takeWhile isJsonWs ++ rawe))), ?_, ?_⟩
            · conv_lhs => rw [hspV, e1, e2]
              simp
            · intro d hd acc
              rw [hsimV d hd, braceScan_skipWs r d, heq1,
                braceScan_plain ',' (by decide) (by decide) (by decide),
                braceScan_skipWs r2 d, hsimE d hd]
              congr 1
              simp
        · rename_i r2 heq1
          have hrest : rest = r2 := (congrArg Prod.snd (Option.some.inj he1)).symm
          subst hrest
          have e1 : r = r.takeWhile isJsonWs ++ (']' :: rest) := by
            conv_lhs => rw [← skipWs_split r]
            rw [heq1]
          refine ⟨rawv ++ (r.takeWhile isJsonWs ++ [']']), ?_, ?_⟩
          · conv_lhs => rw [hspV, e1]
            simp
          · intro d hd acc
            rw [hsimV d hd, braceScan_skipWs r d, heq1,
              braceScan_plain ']' (by decide) (by decide) (by decide)]
            congr 1
            simp
        · exact Option.noConfusion he1

/-- A scan that returns within a prefix is unaffected by appended text. -/
theorem braceScanAux_append : ∀ (l : Str) (inS esc : Bool) (d : Int) (s acc res : Str),
    braceScanAux inS esc d l acc = some res →
    braceScanAux inS esc d (l ++ s) acc = some res := by
  intro l
  induction l with
  | nil =>
    intro inS esc d s acc res h
    cases inS <;> cases esc <;> exact Option.noConfusion h
  | cons c t ih =>
    intro inS esc d s acc res h
    cases inS with
    | true =>
      cases esc with
      | true =>
        rw [show braceScanAux true true d (c :: t) acc
            = braceScanAux true false d t (c :: acc) from rfl] at h
        exact ih true false d s (c :: acc) res h
      | false =>
        by_cases hb : c = '\\'
        · rw [show braceScanAux true false d (c :: t) acc
              = (if c = '\\' then braceScanAux true true d t (c :: acc)
                 else if c = '"' then braceScanAux false false d t (c :: acc)
                 else braceScanAux true false d t (c :: acc)) from rfl,
            if_pos hb] at h
          rw [List.cons_append,
            show braceScanAux true false d (c :: (t ++ s)) acc
              = (if c = '\\' then braceScanAux true true d (t ++ s) (c :: acc)
                 else if c = '"' then braceScanAux false false d (t ++ s) (c :: acc)
                 else braceScanAux true false d (t ++ s) (c :: acc)) from rfl,
            if_pos hb]
          exact ih true true d s (c :: acc) res h
        · by_cases hq : c = '"'
          · rw [show braceScanAux true false d (c :: t) acc
                = (if c = '\\' then braceScanAux true true d t (c :: acc)
                   else if c = '"' then braceScanAux false false d t (c :: acc)
                   else braceScanAux true false d t (c :: acc)) from rfl,
              if_neg hb, if_pos hq] at h
            rw [List.cons_append,
              show braceScanAux true false d (c :: (t ++ s)) acc
                = (if c = '\\' then braceScanAux true true d (t ++ s) (c :: acc)
                   else if c = '"' then braceScanAux false false d (t ++ s) (c :: acc)
                   else braceScanAux true false d (t ++ s) (c :: acc)) from rfl,
              if_neg hb, if_pos hq]
            exact ih false false d s (c :: acc) res h
          · rw [show braceScanAux true false d (c :: t) acc
                = (if c = '\\' then braceScanAux true true d t (c :: acc)
                   else if c = '"' then braceScanAux false false d t (c :: acc)
                   else braceScanAux true false d t (c :: acc)) from rfl,
              if_neg hb, if_neg hq] at h
            rw [List.cons_append,
              show braceScanAux true false d (c :: (t ++ s)) acc
                = (if c = '\\' then braceScanAux true true d (t ++ s) (c :: acc)
                   else if c = '"' then braceScanAux false false d (t ++ s) (c :: acc)
                   else braceScanAux true false d (t ++ s) (c :: acc)) from rfl,
              if_neg hb, if_neg hq]
            exact ih true false d s (c :: acc) res h
    | false =>
      by_cases hq : c = '"'
      · rw [show braceScanAux false esc d (c :: t) acc
            = (if c = '"' then braceScanAux true false d t (c :: acc)
               else if c = '{' then braceScanAux false false (d + 1) t (c :: acc)
               else if c = '}' then
                 if d - 1 = 0 then some (c :: acc).reverse
                 else braceScanAux false false (d - 1) t (c :: acc)
               else braceScanAux false false d t (c :: acc)) from by cases esc <;> rfl,
          if_pos hq] at h
        rw [List.cons_append,
          show braceScanAux false esc d (c :: (t ++ s)) acc
            = (if c = '"' then braceScanAux true false d (t ++ s) (c :: acc)
               else if c = '{' then braceScanAux false false (d + 1) (t ++ s) (c :: acc)
               else if c = '}' then
                 if d - 1 = 0 then some (c :: acc).reverse
                 else braceScanAux false false (d - 1) (t ++ s) (c :: acc)
               else braceScanAux false false d (t ++ s) (c :: acc)) from by cases esc <;> rfl,
          if_pos hq]
        exact ih true false d s (c :: acc) res h
      · by_cases hob : c = '{'
        · rw [show braceScanAux false esc d (c :: t) acc
              = (if c = '"' then braceScanAux true false d t (c :: acc)
                 else if c = '{' then braceScanAux false false (d + 1) t (c :: acc)
                 else if c = '}' then
                   if d - 1 = 0 then some (c :: acc).reverse
                   else braceScanAux false false (d - 1) t (c :: acc)
                 else braceScanAux false false d t (c :: acc)) from by cases esc <;> rfl,
            if_neg hq, if_pos hob] at h
          rw [List.cons_append,
            show braceScanAux false esc d (c :: (t ++ s)) acc
              = (if c = '"' then braceScanAux true false d (t ++ s) (c :: acc)
                 else if c = '{' then braceScanAux false false (d + 1) (t ++ s) (c :: acc)
                 else if c = '}' then
                   if d - 1 = 0 then some (c :: acc).reverse
                   else braceScanAux false false (d - 1) (t ++ s) (c :: acc)
                 else braceScanAux false false d (t ++ s) (c :: acc)) from by cases esc <;> rfl,
            if_neg hq, if_pos hob]
          exact ih false false (d + 1) s (c :: acc) res h
        · by_cases hcb : c = '}'
          · rw [show braceScanAux false esc d (c :: t) acc
                = (if c = '"' then braceScanAux true false d t (c :: acc)
                   else if c = '{' then braceScanAux false false (d + 1) t (c :: acc)
                   else if c = '}' then
                     if d - 1 = 0 then some (c :: acc).reverse
                     else braceScanAux false false (d - 1) t (c :: acc)
                   else braceScanAux false false d t (c :: acc)) from by cases esc <;> rfl,
              if_neg hq, if_neg hob, if_pos hcb] at h
            rw [List.cons_append,
              show braceScanAux false esc d (c :: (t ++ s)) acc
                = (if c = '"' then braceScanAux true false d (t ++ s) (c :: acc)
                   else if c = '{' then braceScanAux false false (d + 1) (t ++ s) (c :: acc)
                   else if c = '}' then
                     if d - 1 = 0 then some (c :: acc).reverse
                     else braceScanAux false false (d - 1) (t ++ s) (c :: acc)
                   else braceScanAux false false d (t ++ s) (c :: acc)) from by cases esc <;> rfl,
              if_neg hq, if_neg hob, if_pos hcb]
            by_cases hz : d - 1 = 0
            · rw [if_pos hz] at h
              rw [if_pos hz]
              exact h
            · rw [if_neg hz] at h
              rw [if_neg hz]
              exact ih false false (d - 1) s (c :: acc) res h
          · rw [show braceScanAux false esc d (c :: t) acc
                = (if c = '"' then braceScanAux true false d t (c :: acc)
                   else if c = '{' then braceScanAux false false (d + 1) t (c :: acc)
                   else if c = '}' then
                     if d - 1 = 0 then some (c :: acc).reverse
                     else braceScanAux false false (d - 1) t (c :: acc)
                   else braceScanAux false false d t (c :: acc)) from by cases esc <;> rfl,
              if_neg hq, if_neg hob, if_neg hcb] at h
            rw [List.cons_append,
              show braceScanAux false esc d (c :: (t ++ s)) acc
                = (if c = '"' then braceScanAux true false d (t ++ s) (c :: acc)
                   else if c = '{' then braceScanAux false false (d + 1) (t ++ s) (c :: acc)
                   else if c = '}' then
                     if d - 1 = 0 then some (c :: acc).reverse
                     else braceScanAux false false (d - 1) (t ++ s) (c :: acc)
                   else braceScanAux false false d (t ++ s) (c :: acc)) from by cases esc <;> rfl,
              if_neg hq, if_neg hob, if_neg hcb]
            exact ih false false d s (c :: acc) res h

/-- A search for a pattern whose first character never occurs fails. -/
theorem findSubAux_none (ch : Char) (subt : Str) :
    ∀ (l : Str) (i : Nat), (∀ c ∈ l, c ≠ ch) →
    findSubAux (ch :: subt) l i = none := by
  intro l
  induction l with
  | nil =>
    intro i h
    unfold findSubAux
    rw [if_neg (by simp)]
  | cons c t ih =>
    intro i hmem
    unfold findSubAux
    have hpref : ¬((ch :: subt).isPrefixOf (c :: t) = true) := by
      intro hp
      have hc : (ch == c) = true := by
        have : ((ch == c) && subt.isPrefixOf t) = true := hp
        exact (Bool.and_eq_true_iff.mp this).1
      exact hmem c (List.mem_cons_self c t) (beq_iff_eq.mp hc).symm
    rw [if_neg hpref]
    exact ih (i + 1) (fun c2 hc2 => hmem c2 (List.mem_cons_of_mem c hc2))

/-- The first opening brace of prose-then-object text is the object's. -/
theorem findSubAux_first_brace : ∀ (p : Str) (x : Str) (i : Nat),
    (∀ c ∈ p, c ≠ '{') → x.head? = some '{' →
    findSubAux ['{'] (p ++ x) i = some (i + p.length) := by
  intro p
  induction p with
  | nil =>
    intro x i hp hh
    cases x with
    | nil => exact Option.noConfusion hh
    | cons c t =>
      have hc : c = '{' := Option.some.inj hh
      subst hc
      rw [List.nil_append]
      have hred : findSubAux ['{'] ('{' :: t) i
          = if ['{'].isPrefixOf ('{' :: t) = true then some i
            else findSubAux ['{'] t (i + 1) := rfl
      rw [hred, if_pos (by simp [List.isPrefixOf])]
      simp
  | cons c p2 ih =>
    intro x i hp hh
    have hc : c ≠ '{' := hp c (List.mem_cons_self c p2)
    rw [List.cons_append]
    have hred : findSubAux ['{'] (c :: (p2 ++ x)) i
        = if ['{'].isPrefixOf (c :: (p2 ++ x)) = true then some i
          else findSubAux ['{'] (p2 ++ x) (i + 1) := rfl
    rw [hred]
    rw [if_neg (by
      intro hpref
      have : ('{' == c) = true := by
        have h2 : (('{' == c) && [].isPrefixOf (p2 ++ x)) = true := hpref
        exact (Bool.and_eq_true_iff.mp h2).1
      exact hc (beq_iff_eq.mp this).symm)]
    rw [ih x (i + 1) (fun c2 hc2 => hp c2 (List.mem_cons_of_mem c hc2)) hh]
    congr 1
    simp
    omega

/-- Dropping a prefix predicate stops at an unmatched head. -/
theorem dropWhile_append_stop (pr : Char → Bool) : ∀ (a b : Str) (c0 : Char),
    b.head? = some c0 → pr c0 = false →
    (a ++ b).dropWhile pr = a.dropWhile pr ++ b := by
  intro a
  induction a with
  | nil =>
    intro b c0 hh hpr
    cases b with
    | nil => exact Option.noConfusion hh
    | cons c t =>
      have hc : c = c0 := Option.some.inj hh
      subst hc
      simp [List.dropWhile_cons, hpr]
  | cons c a2 ih =>
    intro b c0 hh hpr
    by_cases hpc : pr c = true
    · rw [List.cons_append, List.dropWhile_cons, if_pos hpc,
        List.dropWhile_cons, if_pos hpc]
      exact ih b c0 hh hpr
    · rw [List.cons_append, List.dropWhile_cons,
        if_neg hpc, List.dropWhile_cons, if_neg hpc, List.cons_append]

/-- The last element of a list is a member. -/
theorem getLast?_mem_own : ∀ (l : Str) (a : Char), l.getLast? = some a → a ∈ l := by
  intro l
  induction l with
  | nil => intro a h; exact Option.noConfusion h
  | cons c t ih =>
    intro a h
    cases t with
    | nil =>
      have : c = a := Option.some.inj h
      subst this
      exact List.mem_cons_self c []
    | cons c2 t2 =>
      rw [List.getLast?_cons_cons] at h
      exact List.mem_cons_of_mem c (ih a h)

/-- Stripping prose-wrapped object text only strips the prose ends. -/
theorem pyStrip_embed (p obj s : Str) (hh : obj.head? = some '{')
    (hl : obj.getLast? = some '}') :
    pyStrip (p ++ (obj ++ s))
      = p.dropWhile isPyWs ++ (obj ++ dropWhileRight isPyWs s) := by
  have hobjne : obj ≠ [] := by
    intro h2
    rw [h2] at hh
    exact Option.noConfusion hh
  have hh2 : (obj ++ s).head? = some '{' := by
    cases obj with
    | nil => exact absurd rfl hobjne
    | cons c t =>
      have : c = '{' := Option.some.inj hh
      subst this
      rfl
  unfold pyStrip
  rw [dropWhile_append_stop isPyWs p (obj ++ s) '{' hh2 (by decide)]
  unfold dropWhileRight
  have hrev : (p.dropWhile isPyWs ++ (obj ++ s)).reverse
      = s.reverse ++ (obj.reverse ++ (p.dropWhile isPyWs).reverse) := by
    simp
  rw [hrev]
  have hh3 : (obj.reverse ++ (p.dropWhile isPyWs).reverse).head? = some '}' := by
    have hor : obj.reverse.head? = some '}' := by
      rw [List.head?_reverse]
      exact hl
    cases hro : obj.reverse with
    | nil =>
      rw [hro] at hor
      exact Option.noConfusion hor
    | cons c t =>
      rw [hro] at hor
      have : c = '}' := Option.some.inj hor
      subst this
      rfl
  rw [dropWhile_append_stop isPyWs s.reverse _ '}' hh3 (by decide)]
  simp

/-- A trailing remainder that is all whitespace after a text ending in a
closing brace is empty. -/
theorem rest_nil_of_ws (b r obj : Str) (hobj : obj = b ++ r)
    (hws : skipWs r = []) (hl : obj.getLast? = some '}') : r = [] := by
  cases hr : r with
  | nil => rfl
  | cons c0 r0 =>
    have hne : r ≠ [] := by rw [hr]; simp
    have h1 : obj.getLast? = r.getLast? := by
      rw [hobj]
      exact List.getLast?_append_of_ne_nil b hne
    have h2 : r.getLast? = some '}' := by rw [← h1]; exact hl
    have h3 : '}' ∈ r := getLast?_mem_own r '}' h2
    have h4 : ∀ x ∈ r, isJsonWs x = true := by
      have hws2 : r.dropWhile isJsonWs = [] := hws
      exact List.dropWhile_eq_nil_iff.mp hws2
    exact absurd (h4 '}' h3) (by decide)

/-- A strictly parsed JSON object text is recovered exactly by the
balanced-brace scanner. -/
theorem jsonLoads_scanBalanced (obj : Str) (jv : Json)
    (hload : jsonLoads obj = some jv)
    (hh : obj.head? = some '{') (hl : obj.getLast? = some '}') :
    braceScanAux false false 0 obj [] = some obj := by
  cases obj with
  | nil => exact Option.noConfusion hh
  | cons c t =>
    have hc : c = '{' := Option.some.inj hh
    subst hc
    unfold jsonLoads at hload
    have hskipobj : skipWs ('{' :: t) = '{' :: t := by
      show List.dropWhile isJsonWs ('{' :: t) = '{' :: t
      rw [List.dropWhile_cons, if_neg (by decide)]
    rw [hskipobj] at hload
    cases hpv : parseValue (('{' :: t).length + 1) ('{' :: t) with
    | none => rw [hpv] at hload; exact Option.noConfusion hload
    | some pr =>
      obtain ⟨v, r⟩ := pr
      rw [hpv] at hload
      have hload2 : (if skipWs r = [] then some v else none) = some jv := hload
      have hr0 : skipWs r = [] := by
        by_cases hz : skipWs r = []
        · exact hz
        · rw [if_neg hz] at hload2
          exact Option.noConfusion hload2
      rw [parseValue_succ_cons, if_pos rfl] at hpv
      split at hpv
      · rename_i r2 heq
        have hrr : r2 = r := congrArg Prod.snd (Option.some.inj hpv)
        subst hrr
        have ht : t = t.takeWhile isJsonWs ++ ('}' :: r2) := by
          conv_lhs => rw [← skipWs_split t]
          rw [heq]
        have hrnil : r2 = [] := by
          refine rest_nil_of_ws ('{' :: (t.takeWhile isJsonWs ++ ['}'])) r2
            ('{' :: t) ?_ hr0 hl
          conv_lhs => rw [ht]
          simp
        subst hrnil
        rw [braceScan_open, braceScan_skipWs t (0 + 1), heq, braceScan_close,
          if_pos (by omega : (0 : Int) + 1 - 1 = 0)]
        conv_rhs => rw [ht]
        simp
      · rename_i hne
        cases hpm : parseMembers ('{' :: t).length (skipWs t) with
        | none => rw [hpm] at hpv; exact Option.noConfusion hpv
        | some pm =>
          obtain ⟨ms, r2⟩ := pm
          rw [hpm] at hpv
          have hrr : r2 = r := congrArg Prod.snd (Option.some.inj hpv)
          subst hrr
          obtain ⟨rawm, hspM, hsimM⟩ :=
            (scanSim ('{' :: t).length).2.1 (skipWs t) ms r2 hpm
          have ht : t = t.takeWhile isJsonWs ++ (rawm ++ r2) := by
            conv_lhs => rw [← skipWs_split t]
            rw [hspM]
          have hrnil : r2 = [] := by
            refine rest_nil_of_ws ('{' :: (t.takeWhile isJsonWs ++ rawm)) r2
              ('{' :: t) ?_ hr0 hl
            conv_lhs => rw [ht]
            simp
          subst hrnil
          rw [braceScan_open, braceScan_skipWs t (0 + 1),
            hsimM (0 + 1) (by omega), if_pos (by omega : (0 : Int) + 1 = 1)]
          conv_rhs => rw [ht]
          simp

/-- Extraction finds exactly an embedded balanced object when the leading
prose holds no opening brace and no backtick appears anywhere. -/
theorem extract_embedded (p obj s : Str)
    (hbt : ∀ c ∈ p ++ (obj ++ s), c ≠ '`')
    (hpb : ∀ c ∈ p, c ≠ '{')
    (hh : obj.head? = some '{')
    (hscan : braceScanAux false false 0 obj [] = some obj) :
    _extract_first_json_object (p ++ (obj ++ s)) = some obj := by
  have hobjne : obj ≠ [] := by
    intro h2
    rw [h2] at hh
    exact Option.noConfusion hh
  have hh2 : (obj ++ s).head? = some '{' := by
    cases obj with
    | nil => exact absurd rfl hobjne
    | cons c t =>
      have : c = '{' := Option.some.inj hh
      subst this
      rfl
  have hne : p ++ (obj ++ s) ≠ [] := by
    intro h0
    exact hobjne (List.append_eq_nil.mp (List.append_eq_nil.mp h0).2).1
  have hf1 : pyFind (p ++ (obj ++ s)) "```json".toList = none := by
    show findSubAux ('`' :: "``json".toList) (p ++ (obj ++ s)) 0 = none
    exact findSubAux_none '`' "``json".toList (p ++ (obj ++ s)) 0 hbt
  have hf2 : pyFind (p ++ (obj ++ s)) "```".toList = none := by
    show findSubAux ('`' :: "``".toList) (p ++ (obj ++ s)) 0 = none
    exact findSubAux_none '`' "``".toList (p ++ (obj ++ s)) 0 hbt
  have hfb : pyFind (p ++ (obj ++ s)) ['{'] = some p.length := by
    show findSubAux ['{'] (p ++ (obj ++ s)) 0 = some p.length
    rw [findSubAux_first_brace p (obj ++ s) 0 hpb hh2]
    simp
  unfold _extract_first_json_object
  rw [if_neg hne]
  simp only [hf1, hf2, hfb]
  rw [List.drop_left]
  exact braceScanAux_append obj false false 0 s [] obj hscan

/-- C1: a well-formed tool-call JSON object embedded in a larger text is
extracted exactly — string-literal boundaries and escapes are tracked so
braces inside quoted strings do not affect nesting depth — and the
surrounding prose is ignored, provided the prose before the object holds no
opening brace (so the object is the first balanced object) and no backtick
fence interferes; in particular the claimed web_search scenario embedded
mid-sentence parses to web_search with query rust-vs-go and count 3, and a
fenced variant is extracted through the fence path. -/
theorem C1_tool_call_extraction :
    (∀ (p obj s : Str) (jv : Json) (tc : ToolCall),
      (∀ c ∈ p, c ≠ '`') → (∀ c ∈ obj, c ≠ '`') → (∀ c ∈ s, c ≠ '`') →
      (∀ c ∈ p, c ≠ '{') →
      obj.head? = some '{' → obj.getLast? = some '}' →
      jsonLoads obj = some jv → validateToolCall jv = some tc →
      parse_tool_call (p ++ (obj ++ s)) = some tc) ∧
    parse_tool_call c1Scenario = some (.web_search "rust vs go".toList 3) ∧
    parse_tool_call c1FencedScenario = some (.fs_list ".".toList false 200) := by
  refine ⟨?_, by decide, by decide⟩
  intro p obj s jv tc hbp hbo hbs hpb hh hl hld hval
  have hscan := jsonLoads_scanBalanced obj jv hld hh hl
  have hbp2 : ∀ c ∈ p.dropWhile isPyWs, c ≠ '`' :=
    fun c hc => hbp c ((List.dropWhile_sublist isPyWs).subset hc)
  have hpb2 : ∀ c ∈ p.dropWhile isPyWs, c ≠ '{' :=
    fun c hc => hpb c ((List.dropWhile_sublist isPyWs).subset hc)
  have hbs2 : ∀ c ∈ dropWhileRight isPyWs s, c ≠ '`' := by
    intro c hc
    refine hbs c ?_
    have h1 : c ∈ List.dropWhile isPyWs s.reverse := List.mem_reverse.mp hc
    have h2 : c ∈ s.reverse := (List.dropWhile_sublist isPyWs).subset h1
    exact List.mem_reverse.mp h2
  have hbt : ∀ c ∈ p.dropWhile isPyWs ++ (obj ++ dropWhileRight isPyWs s),
      c ≠ '`' := by
    intro c hc
    rcases List.mem_append.mp hc with h1 | h1
    · exact hbp2 c h1
    · rcases List.mem_append.mp h1 with h2 | h2
      · exact hbo c h2
      · exact hbs2 c h2
  unfold parse_tool_call
  rw [pyStrip_embed p obj s hh hl,
    extract_embedded (p.dropWhile isPyWs) obj (dropWhileRight isPyWs s)
      hbt hpb2 hh hscan]
  simp only [hld, hval]

/-- Witness for C1: a concrete object with braces inside a string value,
embedded between prose on both sides, is extracted and validated (count 12
clamping to 10). -/
theorem C1_tool_call_extraction_witness :
    parse_tool_call ("Model says: ".toList ++ (c1WitnessObj ++ " - done.".toList))
      = some (.web_search "braces \x7b inside \x7d string".toList 10) :=
  C1_tool_call_extraction.1 "Model says: ".toList c1WitnessObj " - done.".toList
    c1WitnessJson (.web_search "braces \x7b inside \x7d string".toList 10)
    (by decide) (by decide) (by decide) (by decide) (by rfl) (by rfl)
    (by rfl) (by rfl)

/-- Unfolding equation for the loop on a non-empty script. -/
theorem agentLoop_cons (budget : Nat) (r : RoundResult)
    (rest : List RoundResult) (acc : List ToolCall) :
    agentLoop budget (r :: rest) acc
      = if truthyOptStr r.error then (.errored, acc)
        else if r.was_cancelled then (.cancelled, acc)
        else
          match parse_tool_call (pyStrip r.rawOut) with
          | some tc =>
            if budget = 0 then (.budgetExceeded, acc)
            else agentLoop (budget - 1) rest (acc ++ [tc])
          | none => (.finished, acc) := rfl

/-- The dispatched-call list never exceeds the starting budget. -/
theorem agentLoop_length : ∀ (rounds : List RoundResult) (budget : Nat)
    (acc : List ToolCall),
    (agentLoop budget rounds acc).2.length ≤ acc.length + budget := by
  intro rounds
  induction rounds with
  | nil =>
    intro budget acc
    simp [agentLoop]
  | cons r rest ih =>
    intro budget acc
    rw [agentLoop_cons]
    by_cases he : truthyOptStr r.error = true
    · rw [if_pos he]
      simp
    · rw [if_neg he]
      by_cases hc : r.was_cancelled = true
      · rw [if_pos hc]
        simp
      · rw [if_neg hc]
        cases hp : parse_tool_call (pyStrip r.rawOut) with
        | none => simp
        | some tc =>
          show (if budget = 0 then (TurnEnd.budgetExceeded, acc)
            else agentLoop (budget - 1) rest (acc ++ [tc])).2.length
              ≤ acc.length + budget
          by_cases hb : budget = 0
          · rw [if_pos hb]
            simp
          · rw [if_neg hb]
            have h2 := ih (budget - 1) (acc ++ [tc])
            simp only [List.length_append, List.length_singleton] at h2
            omega

/-- With every round yielding a valid tool call and more rounds than
budget, the loop dispatches exactly the first budget-many calls and ends
with the budget-exceeded notice. -/
theorem agentLoop_all_tools : ∀ (budget : Nat) (rounds : List RoundResult)
    (acc : List ToolCall),
    budget < rounds.length →
    (∀ r ∈ rounds, truthyOptStr r.error = false ∧ r.was_cancelled = false ∧
      (parse_tool_call (pyStrip r.rawOut)).isSome = true) →
    agentLoop budget rounds acc
      = (.budgetExceeded, acc ++ (rounds.take budget).filterMap
          (fun r => parse_tool_call (pyStrip r.rawOut))) := by
  intro budget
  induction budget with
  | zero =>
    intro rounds acc hlen hall
    cases rounds with
    | nil => simp at hlen
    | cons r rest =>
      obtain ⟨he, hc, hp⟩ := hall r (List.mem_cons_self r rest)
      obtain ⟨tc, htc⟩ := Option.isSome_iff_exists.mp hp
      rw [agentLoop_cons, if_neg (by rw [he]; exact Bool.false_ne_true),
        if_neg (by rw [hc]; exact Bool.false_ne_true), htc]
      show (if 0 = 0 then (TurnEnd.budgetExceeded, acc)
        else agentLoop (0 - 1) rest (acc ++ [tc])) = _
      rw [if_pos rfl]
      simp
  | succ b ih =>
    intro rounds acc hlen hall
    cases rounds with
    | nil => simp at hlen
    | cons r rest =>
      obtain ⟨he, hc, hp⟩ := hall r (List.mem_cons_self r rest)
      obtain ⟨tc, htc⟩ := Option.isSome_iff_exists.mp hp
      rw [agentLoop_cons, if_neg (by rw [he]; exact Bool.false_ne_true),
        if_neg (by rw [hc]; exact Bool.false_ne_true), htc]
      show (if b + 1 = 0 then (TurnEnd.budgetExceeded, acc)
        else agentLoop (b + 1 - 1) rest (acc ++ [tc])) = _
      rw [if_neg (Nat.succ_ne_zero b)]
      have h2 := ih rest (acc ++ [tc]) (by simpa using hlen)
        (fun r2 hr2 => hall r2 (List.mem_cons_of_mem r hr2))
      simp only [Nat.add_sub_cancel] at h2 ⊢
      rw [h2]
      simp [List.take_succ_cons, List.filterMap_cons, htc]

/-- When every element maps to some, filterMap preserves length. -/
theorem filterMap_length_all_some {α β : Type} (f : α → Option β) :
    ∀ l : List α, (∀ x ∈ l, (f x).isSome = true) →
    (l.filterMap f).length = l.length := by
  intro l
  induction l with
  | nil => intro h; rfl
  | cons x t ih =>
    intro h
    obtain ⟨y, hy⟩ := Option.isSome_iff_exists.mp (h x (List.mem_cons_self x t))
    rw [List.filterMap_cons, hy]
    simp only [List.length_cons]
    rw [ih (fun z hz => h z (List.mem_cons_of_mem x hz))]

/-- C2: the orchestrator allocates a fixed budget of 8 tool calls per user
turn, decremented on every dispatched call; at most 8 calls are ever
dispatched, and when the model requests 9 consecutive tool calls the 8th is
dispatched while the 9th attempt ends the turn with the budget-exceeded
notice and no 9th dispatch. -/
theorem C2_tool_budget :
    toolBudget = 8 ∧
    (∀ rounds : List RoundResult, (agent_worker rounds).2.length ≤ 8) ∧
    (∀ rounds : List RoundResult, rounds.length = 9 →
      (∀ r ∈ rounds, truthyOptStr r.error = false ∧ r.was_cancelled = false ∧
        (parse_tool_call (pyStrip r.rawOut)).isSome = true) →
      (agent_worker rounds).1 = .budgetExceeded ∧
      (agent_worker rounds).2
        = (rounds.take 8).filterMap (fun r => parse_tool_call (pyStrip r.rawOut)) ∧
      (agent_worker rounds).2.length = 8) := by
  refine ⟨rfl, ?_, ?_⟩
  · intro rounds
    have h := agentLoop_length rounds toolBudget []
    simpa [agent_worker, toolBudget] using h
  · intro rounds hlen hall
    have h := agentLoop_all_tools 8 rounds [] (by omega) hall
    have hl : ((rounds.take 8).filterMap
        (fun r => parse_tool_call (pyStrip r.rawOut))).length = 8 := by
      rw [filterMap_length_all_some _ _
        (fun x hx => (hall x (List.take_subset 8 rounds hx)).2.2)]
      rw [List.length_take, hlen]
      omega
    refine ⟨?_, ?_, ?_⟩
    · show (agentLoop toolBudget rounds []).1 = .budgetExceeded
      rw [show toolBudget = 8 from rfl, h]
    · show (agentLoop toolBudget rounds []).2 = _
      rw [show toolBudget = 8 from rfl, h]
      simp
    · show (agentLoop toolBudget rounds []).2.length = 8
      rw [show toolBudget = 8 from rfl, h]
      simpa using hl

/-- Witness for C2: nine consecutive valid tool-call rounds end with the
budget-exceeded notice after exactly 8 dispatches. -/
theorem C2_tool_budget_witness :
    (agent_worker (List.replicate 9 c2Round)).1 = TurnEnd.budgetExceeded ∧
    (agent_worker (List.replicate 9 c2Round)).2.length = 8 := by
  have h := C2_tool_budget.2.2 (List.replicate 9 c2Round) (by rfl) (by decide)
  exact ⟨h.1, h.2.2⟩

/-! Lemmas on the fs_write conflict flow. -/

/-- A backup candidate never collides with the original path. -/
theorem bakCandidate_ne_path (path : Str) (n : Nat) :
    bakCandidate path n ≠ path := by
  intro h
  have h2 := congrArg List.length h
  simp only [bakCandidate, List.length_append] at h2
  by_cases hn : n = 0
  · rw [if_pos hn] at h2
    have h3 : (".bak".toList).length = 4 := rfl
    omega
  · rw [if_neg hn] at h2
    simp only [List.length_append] at h2
    have h3 : (".bak.".toList).length = 5 := rfl
    omega

/-- Unfolding equation of the store lookup. -/
theorem fsLookup_cons (fs : FileSys) (c0 cont path : Str) :
    fsLookup ((c0, cont) :: fs) path
      = if c0 = path then some cont else fsLookup fs path := rfl

/-- backendFsWrite on an existing target with overwrite false refuses. -/
theorem backendFsWrite_taken (fs : FileSys) (p c : Str)
    (h : (fsLookup fs p).isSome = true) :
    backendFsWrite fs p c false
      = Except.error "File exists and overwrite=false".toList := by
  unfold backendFsWrite
  rw [h]
  rfl

/-- backendFsWrite on a free target writes. -/
theorem backendFsWrite_free (fs : FileSys) (p c : Str) (ow : Bool)
    (h : fsLookup fs p = none) :
    backendFsWrite fs p c ow = Except.ok ((p, c) :: fs) := by
  unfold backendFsWrite
  rw [h]
  rfl

/-- Unfolding equation of the backup scan with remaining fuel. -/
theorem writeUniqueBakAux_succ (path content : Str) (fs : FileSys)
    (n fuel : Nat) :
    writeUniqueBakAux path content fs n (fuel + 1)
      = match backendFsWrite fs (bakCandidate path n) content false with
        | .ok fs2 =>
          (fs2, [(bakCandidate path n, false)],
            .written (bakCandidate path n))
        | .error msg =>
          if isConflictMsg msg then
            ((writeUniqueBakAux path content fs (n + 1) fuel).1,
             (bakCandidate path n, false)
               :: (writeUniqueBakAux path content fs (n + 1) fuel).2.1,
             (writeUniqueBakAux path content fs (n + 1) fuel).2.2)
          else (fs, [(bakCandidate path n, false)], .failed msg) := rfl

/-- Every backend call of the backup scan carries overwrite false. -/
theorem writeUniqueBakAux_flags : ∀ (fuel : Nat) (path content : Str)
    (fs : FileSys) (n : Nat) (pr : Str × Bool),
    pr ∈ (writeUniqueBakAux path content fs n fuel).2.1 → pr.2 = false := by
  intro fuel
  induction fuel with
  | zero =>
    intro path content fs n pr h
    simp [writeUniqueBakAux] at h
  | succ f ih =>
    intro path content fs n pr h
    rw [writeUniqueBakAux_succ] at h
    split at h
    · simp at h
      rw [h]
    · split at h
      · rcases List.mem_cons.mp h with h3 | h3
        · rw [h3]
        · exact ih path content fs (n + 1) pr h3
      · simp at h
        rw [h]

/-- The candidate trace is the candidates numbered in order. -/
theorem bakTrace_eq_range : ∀ (k : Nat) (path : Str) (n : Nat),
    bakTrace path n k
      = (List.range k).map (fun i => (bakCandidate path (n + i), false)) := by
  intro k
  induction k with
  | zero =>
    intro path n
    rfl
  | succ k ih =>
    intro path n
    rw [show bakTrace path n (k + 1)
      = (bakCandidate path n, false) :: bakTrace path (n + 1) k from rfl, ih]
    rw [List.range_succ_eq_map, List.map_cons, List.map_map]
    refine congrArg₂ _ (by rw [Nat.add_zero]) ?_
    apply List.map_congr_left
    intro i _
    show (bakCandidate path (n + 1 + i), false)
      = (bakCandidate path (n + (i + 1)), false)
    rw [show n + 1 + i = n + (i + 1) from by omega]

/-- The candidate trace from zero, in closed form. -/
theorem bakTrace_eq_range0 (k : Nat) (path : Str) :
    bakTrace path 0 k
      = (List.range k).map (fun i => (bakCandidate path i, false)) := by
  rw [bakTrace_eq_range k path 0]
  apply List.map_congr_left
  intro i _
  rw [Nat.zero_add]

/-- The backup scan writes the first free candidate: with the first j
candidates taken and candidate j free within fuel, it prepends exactly
(candidate j, content) and reports the j-th candidate written, having tried
candidates n..n+j in order. -/
theorem writeUniqueBakAux_finds : ∀ (j : Nat) (path content : Str)
    (fs : FileSys) (n fuel : Nat),
    j < fuel →
    (∀ i, i < j → (fsLookup fs (bakCandidate path (n + i))).isSome = true) →
    fsLookup fs (bakCandidate path (n + j)) = none →
    writeUniqueBakAux path content fs n fuel
      = ((bakCandidate path (n + j), content) :: fs,
         bakTrace path n (j + 1),
         .written (bakCandidate path (n + j))) := by
  intro j
  induction j with
  | zero =>
    intro path content fs n fuel hf htaken hfree
    rw [Nat.add_zero] at hfree ⊢
    cases fuel with
    | zero => omega
    | succ f =>
      rw [writeUniqueBakAux_succ]
      split
      · rename_i fs2 hb2
        rw [backendFsWrite_free fs (bakCandidate path n) content false hfree]
          at hb2
        have hfs2 : fs2 = (bakCandidate path n, content) :: fs :=
          (Except.ok.inj hb2).symm
        rw [hfs2]
        rfl
      · rename_i msg hb2
        rw [backendFsWrite_free fs (bakCandidate path n) content false hfree]
          at hb2
        exact Except.noConfusion hb2
  | succ j ih =>
    intro path content fs n fuel hf htaken hfree
    cases fuel with
    | zero => omega
    | succ f =>
      have htk := htaken 0 (Nat.succ_pos j)
      rw [Nat.add_zero] at htk
      rw [writeUniqueBakAux_succ]
      split
      · rename_i fs2 hb2
        rw [backendFsWrite_taken fs (bakCandidate path n) content htk] at hb2
        exact Except.noConfusion hb2
      · rename_i msg hb2
        rw [backendFsWrite_taken fs (bakCandidate path n) content htk] at hb2
        have hmsg : "File exists and overwrite=false".toList = msg :=
          Except.error.inj hb2
        split
        · have hrec := ih path content fs (n + 1) f (by omega)
            (fun i hi => by
              have h2 := htaken (i + 1) (by omega)
              rwa [show n + (i + 1) = n + 1 + i from by omega] at h2)
            (by rwa [show n + (j + 1) = n + 1 + j from by omega] at hfree)
          rw [hrec]
          have hn : n + 1 + j = n + (j + 1) := by omega
          rw [hn]
          rfl
        · rename_i hc
          have h2 : isConflictMsg msg = true := by
            rw [← hmsg]
            decide
          exact absurd h2 hc

/-- With every candidate taken the scan fails after exhausting its fuel,
leaving the store unchanged. -/
theorem writeUniqueBakAux_exhaust : ∀ (fuel : Nat) (path content : Str)
    (fs : FileSys) (n : Nat),
    (∀ i, i < fuel → (fsLookup fs (bakCandidate path (n + i))).isSome = true) →
    (writeUniqueBakAux path content fs n fuel).2.2
      = .failed "Unable to find an available .bak filename after 50 attempts.".toList ∧
    (writeUniqueBakAux path content fs n fuel).1 = fs := by
  intro fuel
  induction fuel with
  | zero =>
    intro path content fs n h
    exact ⟨rfl, rfl⟩
  | succ f ih =>
    intro path content fs n h
    have htk := h 0 (Nat.succ_pos f)
    rw [Nat.add_zero] at htk
    rw [writeUniqueBakAux_succ]
    split
    · rename_i fs2 hb2
      rw [backendFsWrite_taken fs (bakCandidate path n) content htk] at hb2
      exact Except.noConfusion hb2
    · rename_i msg hb2
      rw [backendFsWrite_taken fs (bakCandidate path n) content htk] at hb2
      have hmsg : "File exists and overwrite=false".toList = msg :=
        Except.error.inj hb2
      split
      · have hrec := ih path content fs (n + 1)
          (fun i hi => by
            have h2 := h (i + 1) (by omega)
            rwa [show n + (i + 1) = n + 1 + i from by omega] at h2)
        exact ⟨hrec.1, hrec.2⟩
      · rename_i hc
        have h2 : isConflictMsg msg = true := by
          rw [← hmsg]
          decide
        exact absurd h2 hc

/-- Unfolding equation of the fs_write dispatch branch. -/
theorem dispatchFsWrite_eq (fs : FileSys) (oracle : Option ConflictDecision)
    (path content : Str) (ow : Bool) :
    dispatchFsWrite fs oracle path content ow
      = match backendFsWrite fs path content false with
        | .ok fs2 => (fs2, [(path, false)], .written path)
        | .error msg =>
          if !isConflictMsg msg then (fs, [(path, false)], .failed msg)
          else
            match promptWriteConflict oracle with
            | .overwrite =>
              match backendFsWrite fs path content true with
              | .ok fs2 => (fs2, [(path, false), (path, true)], .written path)
              | .error msg2 =>
                (fs, [(path, false), (path, true)], .failed msg2)
            | .bak =>
              ((writeUniqueBak fs path content).1,
               (path, false) :: (writeUniqueBak fs path content).2.1,
               (writeUniqueBak fs path content).2.2)
            | .cancel => (fs, [(path, false)], .cancelledWrite) := rfl

/-- C9: a backend existing-file conflict on fs_write synchronously asks for
a ConflictDecision with a 180-second wait defaulting to cancel when no
answer arrives; the backup decision retries against .bak, .bak.1, ...
scanning upward to the first unused name within 50 attempts — writing it
and leaving the original file untouched — and fails with all 50 taken. -/
theorem C9_write_conflict :
    conflictTimeoutSeconds = 180 ∧
    promptWriteConflict none = ConflictDecision.cancel ∧
    (∀ (fs : FileSys) (path content : Str) (ow : Bool),
      (fsLookup fs path).isSome = true →
      dispatchFsWrite fs none path content ow
        = (fs, [(path, false)], .cancelledWrite)) ∧
    (∀ (fs : FileSys) (path content : Str) (ow : Bool) (j : Nat),
      j < 50 →
      (∀ i, i < j → (fsLookup fs (bakCandidate path i)).isSome = true) →
      fsLookup fs (bakCandidate path j) = none →
      (fsLookup fs path).isSome = true →
      dispatchFsWrite fs (some .bak) path content ow
        = ((bakCandidate path j, content) :: fs,
           (path, false) :: (List.range (j + 1)).map
             (fun i => (bakCandidate path i, false)),
           .written (bakCandidate path j)) ∧
      fsLookup ((bakCandidate path j, content) :: fs) path
        = fsLookup fs path) ∧
    (∀ (fs : FileSys) (path content : Str) (ow : Bool),
      (fsLookup fs path).isSome = true →
      (∀ i, i < 50 → (fsLookup fs (bakCandidate path i)).isSome = true) →
      (dispatchFsWrite fs (some .bak) path content ow).2.2
        = .failed "Unable to find an available .bak filename after 50 attempts.".toList ∧
      (dispatchFsWrite fs (some .bak) path content ow).1 = fs) := by
  refine ⟨rfl, rfl, ?_, ?_, ?_⟩
  · intro fs path content ow h
    rw [dispatchFsWrite_eq]
    split
    · rename_i fs2 hb2
      rw [backendFsWrite_taken fs path content h] at hb2
      exact Except.noConfusion hb2
    · rename_i msg hb2
      rw [backendFsWrite_taken fs path content h] at hb2
      have hmsg : "File exists and overwrite=false".toList = msg :=
        Except.error.inj hb2
      have hc : isConflictMsg msg = true := by
        rw [← hmsg]
        decide
      rw [hc]
      rfl
  · intro fs path content ow j hj htaken hfree hexist
    have hscan := writeUniqueBakAux_finds j path content fs 0 50 hj
      (fun i hi => by
        rw [Nat.zero_add]
        exact htaken i hi)
      (by rw [Nat.zero_add]; exact hfree)
    rw [Nat.zero_add] at hscan
    refine ⟨?_, ?_⟩
    · rw [dispatchFsWrite_eq]
      split
      · rename_i fs2 hb2
        rw [backendFsWrite_taken fs path content hexist] at hb2
        exact Except.noConfusion hb2
      · rename_i msg hb2
        rw [backendFsWrite_taken fs path content hexist] at hb2
        have hmsg : "File exists and overwrite=false".toList = msg :=
          Except.error.inj hb2
        have hc : isConflictMsg msg = true := by
          rw [← hmsg]
          decide
        rw [hc]
        show ((writeUniqueBakAux path content fs 0 50).1,
          (path, false) :: (writeUniqueBakAux path content fs 0 50).2.1,
          (writeUniqueBakAux path content fs 0 50).2.2) = _
        rw [hscan, ← bakTrace_eq_range0]
    · rw [fsLookup_cons, if_neg (bakCandidate_ne_path path j)]
  · intro fs path content ow hexist htaken
    have hscan := writeUniqueBakAux_exhaust 50 path content fs 0
      (fun i hi => by
        rw [Nat.zero_add]
        exact htaken i hi)
    have hdisp : dispatchFsWrite fs (some .bak) path content ow
        = ((writeUniqueBakAux path content fs 0 50).1,
           (path, false) :: (writeUniqueBakAux path content fs 0 50).2.1,
           (writeUniqueBakAux path content fs 0 50).2.2) := by
      rw [dispatchFsWrite_eq]
      split
      · rename_i fs2 hb2
        rw [backendFsWrite_taken fs path content hexist] at hb2
        exact Except.noConfusion hb2
      · rename_i msg hb2
        rw [backendFsWrite_taken fs path content hexist] at hb2
        have hmsg : "File exists and overwrite=false".toList = msg :=
          Except.error.inj hb2
        have hc : isConflictMsg msg = true := by
          rw [← hmsg]
          decide
        rw [hc]
        rfl
    rw [hdisp]
    exact ⟨hscan.1, hscan.2⟩

/-- Witness for C9: with a.txt and a.txt.bak taken, the backup decision
writes a.txt.bak.1 and leaves a.txt untouched. -/
theorem C9_write_conflict_witness :
    dispatchFsWrite c9fs (some ConflictDecision.bak) "a.txt".toList
        "new".toList false
      = ((bakCandidate "a.txt".toList 1, "new".toList) :: c9fs,
         ("a.txt".toList, false) :: (List.range 2).map
           (fun i => (bakCandidate "a.txt".toList i, false)),
         WriteOutcome.written (bakCandidate "a.txt".toList 1)) ∧
    fsLookup ((bakCandidate "a.txt".toList 1, "new".toList) :: c9fs)
        "a.txt".toList
      = fsLookup c9fs "a.txt".toList :=
  C9_write_conflict.2.2.2.1 c9fs "a.txt".toList "new".toList false 1
    (by omega)
    (fun i hi => by
      have h0 : i = 0 := by omega
      subst h0
      decide)
    (by decide) (by decide)

/-- C10: every dispatched fs_write first calls the backend with overwrite
false regardless of the parsed flag; a backend call with overwrite true
happens only after an explicit overwrite decision, and then on the same
path; and the parser defaults overwrite to true when the field is absent,
so the dispatcher's overwrite=false first call is what forces the conflict
prompt on an existing target. -/
theorem C10_first_write_overwrite_false :
    (∀ (fs : FileSys) (oracle : Option ConflictDecision) (path content : Str)
      (ow : Bool),
      (dispatchFsWrite fs oracle path content ow).2.1.head?
        = some (path, false)) ∧
    (∀ (fs : FileSys) (oracle : Option ConflictDecision) (path content : Str)
      (ow : Bool) (pr : Str × Bool),
      pr ∈ (dispatchFsWrite fs oracle path content ow).2.1 → pr.2 = true →
      promptWriteConflict oracle = ConflictDecision.overwrite ∧
      pr.1 = path) ∧
    validateToolCall (fsWriteObj "f.txt".toList (Json.str "data".toList))
      = some (ToolCall.fs_write "f.txt".toList "data".toList true) := by
  refine ⟨?_, ?_, by decide⟩
  · intro fs oracle path content ow
    rw [dispatchFsWrite_eq]
    split
    · rfl
    · split
      · rfl
      · split
        · split
          · rfl
          · rfl
        · rfl
        · rfl
  · intro fs oracle path content ow pr hmem htrue
    rw [dispatchFsWrite_eq] at hmem
    split at hmem
    · simp at hmem
      rw [hmem] at htrue
      exact Bool.noConfusion htrue
    · split at hmem
      · simp at hmem
        rw [hmem] at htrue
        exact Bool.noConfusion htrue
      · split at hmem
        · rename_i hdec
          split at hmem
          · simp at hmem
            rcases hmem with h3 | h3
            · rw [h3] at htrue
              exact Bool.noConfusion htrue
            · rw [h3]
              exact ⟨hdec, rfl⟩
          · simp at hmem
            rcases hmem with h3 | h3
            · rw [h3] at htrue
              exact Bool.noConfusion htrue
            · rw [h3]
              exact ⟨hdec, rfl⟩
        · rcases List.mem_cons.mp hmem with h3 | h3
          · rw [h3] at htrue
            exact Bool.noConfusion htrue
          · have h4 := writeUniqueBakAux_flags 50 path content fs 0 pr h3
            rw [h4] at htrue
            exact Bool.noConfusion htrue
        · simp at hmem
          rw [hmem] at htrue
          exact Bool.noConfusion htrue

/-- Witness for C10: in an overwrite-decision run the overwrite=true call
in the trace targets the original path after the explicit decision. -/
theorem C10_first_write_overwrite_false_witness :
    promptWriteConflict (some ConflictDecision.overwrite)
      = ConflictDecision.overwrite ∧
    (("t.txt".toList, true) : Str × Bool).1 = "t.txt".toList :=
  C10_first_write_overwrite_false.2.1 c10fs (some ConflictDecision.overwrite)
    "t.txt".toList "new".toList true ("t.txt".toList, true) (by decide) rfl

/-! Lemmas on the stream consumer machine. -/

/-- Unfolding: the line loop on an exhausted line list. -/
theorem processLines_nil (cfg : StreamCfg) (st : StreamSt) :
    processLines cfg st [] = (st, [], .finishedLines) := rfl

/-- Unfolding: the line loop on a blank keep-alive line. -/
theorem processLines_blank (cfg : StreamCfg) (st : StreamSt)
    (rest : List LineEvent) :
    processLines cfg st (.blank :: rest)
      = if (checkCancel cfg st).1 then
          ({ (checkCancel cfg st).2 with wasCancelled := true }, rest,
            LoopExit.cancelledLoop)
        else processLines cfg (checkCancel cfg st).2 rest := rfl

/-- Unfolding: the line loop on a non-data line. -/
theorem processLines_nondata (cfg : StreamCfg) (st : StreamSt)
    (rest : List LineEvent) :
    processLines cfg st (.nondata :: rest)
      = if (checkCancel cfg st).1 then
          ({ (checkCancel cfg st).2 with wasCancelled := true }, rest,
            LoopExit.cancelledLoop)
        else processLines cfg (checkCancel cfg st).2 rest := rfl

/-- Unfolding: the line loop on a decoded chunk. -/
theorem processLines_chunk (cfg : StreamCfg) (st : StreamSt) (tArr : Time)
    (content : Str) (rest : List LineEvent) :
    processLines cfg st (.chunk tArr content :: rest)
      = if (checkCancel cfg st).1 then
          ({ (checkCancel cfg st).2 with wasCancelled := true }, rest,
            LoopExit.cancelledLoop)
        else if content = [] then processLines cfg (checkCancel cfg st).2 rest
        else if (chunkAppend cfg (checkCancel cfg st).2 tArr content).sawTool
            = false then
          match parse_tool_call (pyStrip
              ((chunkAppend cfg (checkCancel cfg st).2 tArr content).content
                ++ (chunkAppend cfg (checkCancel cfg st).2 tArr content).pendingRaw)) with
          | some tc =>
            match _extract_first_json_object (pyStrip
                ((chunkAppend cfg (checkCancel cfg st).2 tArr content).content
                  ++ (chunkAppend cfg (checkCancel cfg st).2 tArr content).pendingRaw)) with
            | some toolJson =>
              (markTool (chunkAppend cfg (checkCancel cfg st).2 tArr content)
                tc toolJson, rest, LoopExit.toolDetected)
            | none => processLines cfg
                (debounce tArr (chunkAppend cfg (checkCancel cfg st).2 tArr content))
                rest
          | none => processLines cfg
              (debounce tArr (chunkAppend cfg (checkCancel cfg st).2 tArr content))
              rest
        else processLines cfg
            (debounce tArr (chunkAppend cfg (checkCancel cfg st).2 tArr content))
            rest := rfl

/-- The combined content after a buffered append is the old combined
content followed by the chunk. -/
theorem chunkAppend_combined (cfg : StreamCfg) (st : StreamSt) (tArr : Time)
    (content : Str) :
    (chunkAppend cfg st tArr content).content
      ++ (chunkAppend cfg st tArr content).pendingRaw
      = st.content ++ st.pendingRaw ++ content := by
  show st.content ++ (st.pendingRaw ++ content)
    = st.content ++ st.pendingRaw ++ content
  rw [List.append_assoc]

/-- The debounced flush moves text between message and buffer but changes
no other observable. -/
theorem debounce_fields (tArr : Time) (st : StreamSt) :
    (debounce tArr st).sawTool = st.sawTool ∧
    (debounce tArr st).wasCancelled = st.wasCancelled ∧
    (debounce tArr st).attempt = st.attempt ∧
    (debounce tArr st).retries = st.retries ∧
    (debounce tArr st).sentPrompts = st.sentPrompts ∧
    (debounce tArr st).lastErr = st.lastErr ∧
    (debounce tArr st).chars = st.chars ∧
    (debounce tArr st).consumedRaw = st.consumedRaw ∧
    (debounce tArr st).firstTok = st.firstTok ∧
    (debounce tArr st).content ++ (debounce tArr st).pendingRaw
      = st.content ++ st.pendingRaw := by
  unfold debounce
  split
  · refine ⟨rfl, rfl, rfl, rfl, rfl, rfl, rfl, rfl, rfl, ?_⟩
    show (st.content ++ st.pendingRaw) ++ [] = st.content ++ st.pendingRaw
    rw [List.append_nil]
  · exact ⟨rfl, rfl, rfl, rfl, rfl, rfl, rfl, rfl, rfl, rfl⟩

/-- Transfer of the line-loop facts along a state change that preserves the
observables. -/
theorem PLRel_transfer (cfg : StreamCfg) (lines : List LineEvent)
    (st0 st3 : StreamSt)
    (hsaw : st3.sawTool = st0.sawTool)
    (hwc : st3.wasCancelled = st0.wasCancelled)
    (hat : st3.attempt = st0.attempt)
    (hrt : st3.retries = st0.retries)
    (hsp : st3.sentPrompts = st0.sentPrompts)
    (hle : st3.lastErr = st0.lastErr)
    (hcomb : st0.content ++ st0.pendingRaw = st0.consumedRaw →
      st3.content ++ st3.pendingRaw = st3.consumedRaw)
    (hch : st0.chars = st0.consumedRaw.length →
      st3.chars = st3.consumedRaw.length)
    (h : PLRel cfg st3 st3 lines) : PLRel cfg st0 st3 lines := by
  obtain ⟨h1, h2, h3, h4, h5, h6, h7, h8, h9⟩ := h
  refine ⟨?_, h2, h3, ?_, ?_, ?_, ?_, ?_, ?_⟩
  · intro hne
    obtain ⟨ha, hb⟩ := h1 hne
    exact ⟨ha.trans hsaw, fun hc => hb (hcomb hc)⟩
  · intro hne
    exact (h4 hne).trans hwc
  · exact h5.trans hat
  · exact h6.trans hrt
  · exact h7.trans hsp
  · exact h8.trans hle
  · intro hc
    exact h9 (hch hc)

/-- The facts transfer along the chunk-append-then-debounce step. -/
theorem PLRel_chunk_step (cfg : StreamCfg) (rest : List LineEvent)
    (st : StreamSt) (tArr : Time) (content : Str)
    (h : PLRel cfg
      (debounce tArr (chunkAppend cfg (checkCancel cfg st).2 tArr content))
      (debounce tArr (chunkAppend cfg (checkCancel cfg st).2 tArr content))
      rest) :
    PLRel cfg st
      (debounce tArr (chunkAppend cfg (checkCancel cfg st).2 tArr content))
      rest := by
  have hd := debounce_fields tArr
    (chunkAppend cfg (checkCancel cfg st).2 tArr content)
  refine PLRel_transfer cfg rest st _ hd.1 hd.2.1 hd.2.2.1 hd.2.2.2.1
    hd.2.2.2.2.1 hd.2.2.2.2.2.1 ?_ ?_ h
  · intro hc
    rw [hd.2.2.2.2.2.2.2.2.2, hd.2.2.2.2.2.2.2.1]
    rw [chunkAppend_combined cfg (checkCancel cfg st).2 tArr content]
    show st.content ++ st.pendingRaw ++ content = st.consumedRaw ++ content
    rw [hc]
  · intro hc
    rw [hd.2.2.2.2.2.2.1, hd.2.2.2.2.2.2.2.1]
    show st.chars + content.length = (st.consumedRaw ++ content).length
    rw [List.length_append, hc]

/-- The line-loop facts hold for every run. -/
theorem processLines_rel (cfg : StreamCfg) : ∀ (lines : List LineEvent)
    (st : StreamSt), PLRel cfg st st lines := by
  intro lines
  induction lines with
  | nil =>
    intro st
    unfold PLRel
    rw [processLines_nil]
    exact ⟨fun _ => ⟨rfl, fun h => h⟩, fun h => LoopExit.noConfusion h,
      fun h => LoopExit.noConfusion h, fun _ => rfl, rfl, rfl, rfl, rfl,
      fun h => h⟩
  | cons ev rest ih =>
    intro st
    unfold PLRel
    cases ev with
    | blank =>
      rw [processLines_blank]
      by_cases hp : (checkCancel cfg st).1 = true
      · rw [if_pos hp]
        exact ⟨fun _ => ⟨rfl, fun h => h⟩, fun h => LoopExit.noConfusion h,
          fun _ => rfl, fun h => absurd rfl h, rfl, rfl, rfl, rfl, fun h => h⟩
      · rw [if_neg hp]
        exact ih (checkCancel cfg st).2
    | nondata =>
      rw [processLines_nondata]
      by_cases hp : (checkCancel cfg st).1 = true
      · rw [if_pos hp]
        exact ⟨fun _ => ⟨rfl, fun h => h⟩, fun h => LoopExit.noConfusion h,
          fun _ => rfl, fun h => absurd rfl h, rfl, rfl, rfl, rfl, fun h => h⟩
      · rw [if_neg hp]
        exact ih (checkCancel cfg st).2
    | chunk tArr content =>
      rw [processLines_chunk]
      by_cases hp : (checkCancel cfg st).1 = true
      · rw [if_pos hp]
        exact ⟨fun _ => ⟨rfl, fun h => h⟩, fun h => LoopExit.noConfusion h,
          fun _ => rfl, fun h => absurd rfl h, rfl, rfl, rfl, rfl, fun h => h⟩
      · rw [if_neg hp]
        by_cases hcz : content = []
        · rw [if_pos hcz]
          exact ih (checkCancel cfg st).2
        · rw [if_neg hcz]
          by_cases hsaw : (chunkAppend cfg (checkCancel cfg st).2 tArr
              content).sawTool = false
          · rw [if_pos hsaw]
            cases hpar : parse_tool_call (pyStrip
                ((chunkAppend cfg (checkCancel cfg st).2 tArr content).content
                  ++ (chunkAppend cfg (checkCancel cfg st).2 tArr
                    content).pendingRaw)) with
            | some tc =>
              cases hext : _extract_first_json_object (pyStrip
                  ((chunkAppend cfg (checkCancel cfg st).2 tArr
                    content).content
                    ++ (chunkAppend cfg (checkCancel cfg st).2 tArr
                      content).pendingRaw)) with
              | some toolJson =>
                refine ⟨fun hne => absurd rfl hne, fun _ => rfl,
                  fun h => LoopExit.noConfusion h, fun _ => rfl, rfl, rfl,
                  rfl, rfl, ?_⟩
                intro h
                show st.chars + content.length
                  = (st.consumedRaw ++ content).length
                rw [List.length_append, h]
              | none =>
                exact PLRel_chunk_step cfg rest st tArr content (ih _)
            | none =>
              exact PLRel_chunk_step cfg rest st tArr content (ih _)
          · rw [if_neg hsaw]
            exact PLRel_chunk_step cfg rest st tArr content (ih _)

/-- Unfolding: the attempt loop on an exhausted script. -/
theorem streamLoop_nil (cfg : StreamCfg) (st : StreamSt) :
    streamLoop cfg st []
      = if (checkCancel cfg st).1 then
          some { (checkCancel cfg st).2 with wasCancelled := true }
        else none := rfl

/-- Unfolding: the attempt loop on a scripted post failure. -/
theorem streamLoop_postFail (cfg : StreamCfg) (st : StreamSt) (bp : Str)
    (transient : Bool) (msg : Str) (srest : List ConnScript) :
    streamLoop cfg st (⟨bp, .postFail transient msg⟩ :: srest)
      = if (checkCancel cfg st).1 then
          some { (checkCancel cfg st).2 with wasCancelled := true }
        else
          if (checkCancel cfg (flush_pending
              (promptRecord (checkCancel cfg st).2 bp))).1 then
            some { (checkCancel cfg (flush_pending
              (promptRecord (checkCancel cfg st).2 bp))).2 with
                wasCancelled := true }
          else if transient && (checkCancel cfg (flush_pending
              (promptRecord (checkCancel cfg st).2 bp))).2.attempt < 2 then
            streamLoop cfg (retryState (checkCancel cfg (flush_pending
              (promptRecord (checkCancel cfg st).2 bp))).2 msg) srest
          else some { (checkCancel cfg (flush_pending
            (promptRecord (checkCancel cfg st).2 bp))).2 with
              lastErr := some msg } := rfl

/-- Unfolding: the attempt loop on a scripted loading poll. -/
theorem streamLoop_loading (cfg : StreamCfg) (st : StreamSt) (bp : Str)
    (wall : Time) (srest : List ConnScript) :
    streamLoop cfg st (⟨bp, .loading wall⟩ :: srest)
      = if (checkCancel cfg st).1 then
          some { (checkCancel cfg st).2 with wasCancelled := true }
        else
          if (checkCancel cfg (promptRecord (checkCancel cfg st).2 bp)).1 then
            some { (checkCancel cfg
              (promptRecord (checkCancel cfg st).2 bp)).2 with
                wasCancelled := true }
          else if cfg.startWall + 180000 < wall then
            if (checkCancel cfg (flush_pending (checkCancel cfg
                (promptRecord (checkCancel cfg st).2 bp)).2)).1 then
              some { (checkCancel cfg (flush_pending (checkCancel cfg
                (promptRecord (checkCancel cfg st).2 bp)).2)).2 with
                  wasCancelled := true }
            else some { (checkCancel cfg (flush_pending (checkCancel cfg
              (promptRecord (checkCancel cfg st).2 bp)).2)).2 with
                lastErr := some loadingTimeoutMsg }
          else streamLoop cfg
            (checkCancel cfg (promptRecord (checkCancel cfg st).2 bp)).2
            srest := rfl

/-- Unfolding: the attempt loop on a scripted fatal completion error. -/
theorem streamLoop_httpError (cfg : StreamCfg) (st : StreamSt) (bp : Str)
    (status : Nat) (detail : Str) (srest : List ConnScript) :
    streamLoop cfg st (⟨bp, .httpError status detail⟩ :: srest)
      = if (checkCancel cfg st).1 then
          some { (checkCancel cfg st).2 with wasCancelled := true }
        else
          if (checkCancel cfg (flush_pending
              (promptRecord (checkCancel cfg st).2 bp))).1 then
            some { (checkCancel cfg (flush_pending
              (promptRecord (checkCancel cfg st).2 bp))).2 with
                wasCancelled := true }
          else some { (checkCancel cfg (flush_pending
            (promptRecord (checkCancel cfg st).2 bp))).2 with
              lastErr := some (httpErrorMsg status detail) } := rfl

/-- Unfolding: the attempt loop on a scripted live connection. -/
theorem streamLoop_ok (cfg : StreamCfg) (st : StreamSt) (bp : Str)
    (lines : List LineEvent) (endr : StreamEnd) (srest : List ConnScript) :
    streamLoop cfg st (⟨bp, .ok lines endr⟩ :: srest)
      = if (checkCancel cfg st).1 then
          some { (checkCancel cfg st).2 with wasCancelled := true }
        else
          match (processLines cfg (promptRecord (checkCancel cfg st).2 bp)
              lines).2.2 with
          | .cancelledLoop => some (flush_pending (processLines cfg
              (promptRecord (checkCancel cfg st).2 bp) lines).1)
          | .toolDetected => some (flush_pending (processLines cfg
              (promptRecord (checkCancel cfg st).2 bp) lines).1)
          | .finishedLines =>
            match endr with
            | .done => some (flush_pending (processLines cfg
                (promptRecord (checkCancel cfg st).2 bp) lines).1)
            | .fail transient msg =>
              if (checkCancel cfg (flush_pending (processLines cfg
                  (promptRecord (checkCancel cfg st).2 bp) lines).1)).1 then
                some { (checkCancel cfg (flush_pending (processLines cfg
                  (promptRecord (checkCancel cfg st).2 bp) lines).1)).2 with
                    wasCancelled := true }
              else if transient && (checkCancel cfg (flush_pending
                  (processLines cfg (promptRecord (checkCancel cfg st).2 bp)
                    lines).1)).2.attempt < 2 then
                streamLoop cfg (retryState (checkCancel cfg (flush_pending
                  (processLines cfg (promptRecord (checkCancel cfg st).2 bp)
                    lines).1)).2 msg) srest
              else some { (checkCancel cfg (flush_pending (processLines cfg
                (promptRecord (checkCancel cfg st).2 bp) lines).1)).2 with
                  lastErr := some msg } := rfl

/-- The invariant holds at the start of a run. -/
theorem StInv_initial : StInv initialStreamSt :=
  ⟨fun _ => rfl, rfl, rfl, by decide,
    fun tr htr => absurd htr (List.not_mem_nil tr)⟩

/-- Recording a prompt preserves the invariant. -/
theorem StInv_promptRecord (st : StreamSt) (bp : Str) (h : StInv st) :
    StInv (promptRecord st bp) := by
  obtain ⟨h1, h2, h3, h4, h5⟩ := h
  refine ⟨h1, h2, h3, h4, ?_⟩
  intro tr htr
  rcases List.mem_append.mp htr with h6 | h6
  · exact h5 tr h6
  · have h7 : tr = (st.attempt, bp, buildPrompt bp st.attempt) := by
      simpa using h6
    rw [h7]
    exact ⟨h4, rfl⟩

/-- Flushing preserves the invariant. -/
theorem StInv_flush (st : StreamSt) (h : StInv st) :
    StInv (flush_pending st) := by
  obtain ⟨h1, h2, h3, h4, h5⟩ := h
  refine ⟨?_, h2, h3, h4, h5⟩
  intro hsaw
  show (st.content ++ st.pendingRaw) ++ [] = st.consumedRaw
  rw [List.append_nil]
  exact h1 hsaw

/-- Taking a retry within the attempt guard preserves the invariant. -/
theorem StInv_retry (st : StreamSt) (msg : Str) (h : StInv st)
    (hlt : st.attempt < 2) : StInv (retryState st msg) := by
  obtain ⟨h1, h2, h3, h4, h5⟩ := h
  refine ⟨h1, h2, ?_, ?_, h5⟩
  · show st.retries + 1 = st.attempt + 1
    rw [h3]
  · show st.attempt + 1 ≤ 2
    omega

/-- The invariant survives a line-loop run, given its facts. -/
theorem StInv_processLines (cfg : StreamCfg) (lines : List LineEvent)
    (st2 : StreamSt) (h : StInv st2) :
    StInv (processLines cfg st2 lines).1 := by
  obtain ⟨h1, h2, h3, h4, h5⟩ := h
  obtain ⟨p1, p2, p3, p4, p5, p6, p7, p8, p9⟩ := processLines_rel cfg lines st2
  refine ⟨?_, p9 h2, ?_, ?_, ?_⟩
  · intro hsaw
    by_cases hex : (processLines cfg st2 lines).2.2 = .toolDetected
    · rw [p2 hex] at hsaw
      exact absurd hsaw (by decide)
    · obtain ⟨ha, hb⟩ := p1 hex
      exact hb (h1 (ha.symm.trans hsaw))
  · rw [p6, p5]
    exact h3
  · rw [p5]
    exact h4
  · intro tr htr
    rw [p7] at htr
    exact h5 tr htr

/-- The attempt-loop invariant: a run that returns a state returns one
satisfying the state invariant; a cancelled exit of a tool-free run is
tool-free; and a script with no transient failure never counts a retry. -/
theorem streamLoop_inv (cfg : StreamCfg) : ∀ (script : List ConnScript)
    (st st' : StreamSt),
    streamLoop cfg st script = some st' → StInv st →
    StInv st' ∧
    (st.wasCancelled = false → st.sawTool = false → st'.wasCancelled = true →
      st'.sawTool = false) ∧
    (noTransientScript script = true → st'.retries = st.retries) := by
  intro script
  induction script with
  | nil =>
    intro st st' h hinv
    rw [streamLoop_nil] at h
    by_cases hp : (checkCancel cfg st).1 = true
    · rw [if_pos hp] at h
      injection h with h2
      subst h2
      exact ⟨hinv, fun _ hs _ => hs, fun _ => rfl⟩
    · rw [if_neg hp] at h
      exact Option.noConfusion h
  | cons sc srest ih =>
    intro st st' h hinv
    rcases sc with ⟨bp, conn⟩
    cases conn with
    | postFail transient msg =>
      rw [streamLoop_postFail] at h
      by_cases hp : (checkCancel cfg st).1 = true
      · rw [if_pos hp] at h
        injection h with h2
        subst h2
        exact ⟨hinv, fun _ hs _ => hs, fun _ => rfl⟩
      · rw [if_neg hp] at h
        by_cases hq : (checkCancel cfg (flush_pending
            (promptRecord (checkCancel cfg st).2 bp))).1 = true
        · rw [if_pos hq] at h
          injection h with h2
          subst h2
          exact ⟨StInv_flush _ (StInv_promptRecord _ bp hinv),
            fun _ hs _ => hs, fun _ => rfl⟩
        · rw [if_neg hq] at h
          by_cases hret : (transient && (checkCancel cfg (flush_pending
              (promptRecord (checkCancel cfg st).2 bp))).2.attempt < 2) = true
          · rw [if_pos hret] at h
            rw [Bool.and_eq_true] at hret
            have hlt : (checkCancel cfg (flush_pending
                (promptRecord (checkCancel cfg st).2 bp))).2.attempt < 2 :=
              of_decide_eq_true hret.2
            obtain ⟨i1, i2, i3⟩ := ih _ st' h
              (StInv_retry _ msg
                (StInv_flush _ (StInv_promptRecord _ bp hinv)) hlt)
            refine ⟨i1, fun hw hs hc => i2 hw hs hc, ?_⟩
            intro hnt
            have h2 : (!transient && noTransientScript srest) = true := hnt
            rw [Bool.and_eq_true] at h2
            rw [hret.1] at h2
            exact absurd h2.1 (by decide)
          · rw [if_neg hret] at h
            injection h with h2
            subst h2
            exact ⟨StInv_flush _ (StInv_promptRecord _ bp hinv),
              fun _ hs _ => hs, fun _ => rfl⟩
    | loading wall =>
      rw [streamLoop_loading] at h
      by_cases hp : (checkCancel cfg st).1 = true
      · rw [if_pos hp] at h
        injection h with h2
        subst h2
        exact ⟨hinv, fun _ hs _ => hs, fun _ => rfl⟩
      · rw [if_neg hp] at h
        by_cases hq : (checkCancel cfg
            (promptRecord (checkCancel cfg st).2 bp)).1 = true
        · rw [if_pos hq] at h
          injection h with h2
          subst h2
          exact ⟨StInv_promptRecord _ bp hinv, fun _ hs _ => hs,
            fun _ => rfl⟩
        · rw [if_neg hq] at h
          by_cases hdl : cfg.startWall + 180000 < wall
          · rw [if_pos hdl] at h
            by_cases hq2 : (checkCancel cfg (flush_pending (checkCancel cfg
                (promptRecord (checkCancel cfg st).2 bp)).2)).1 = true
            · rw [if_pos hq2] at h
              injection h with h2
              subst h2
              exact ⟨StInv_flush _ (StInv_promptRecord _ bp hinv),
                fun _ hs _ => hs, fun _ => rfl⟩
            · rw [if_neg hq2] at h
              injection h with h2
              subst h2
              exact ⟨StInv_flush _ (StInv_promptRecord _ bp hinv),
                fun _ hs _ => hs, fun _ => rfl⟩
          · rw [if_neg hdl] at h
            obtain ⟨i1, i2, i3⟩ := ih _ st' h (StInv_promptRecord _ bp hinv)
            refine ⟨i1, fun hw hs hc => i2 hw hs hc, ?_⟩
            intro hnt
            have h2 : (true && noTransientScript srest) = true := hnt
            rw [Bool.and_eq_true] at h2
            exact i3 h2.2
    | httpError status detail =>
      rw [streamLoop_httpError] at h
      by_cases hp : (checkCancel cfg st).1 = true
      · rw [if_pos hp] at h
        injection h with h2
        subst h2
        exact ⟨hinv, fun _ hs _ => hs, fun _ => rfl⟩
      · rw [if_neg hp] at h
        by_cases hq : (checkCancel cfg (flush_pending
            (promptRecord (checkCancel cfg st).2 bp))).1 = true
        · rw [if_pos hq] at h
          injection h with h2
          subst h2
          exact ⟨StInv_flush _ (StInv_promptRecord _ bp hinv),
            fun _ hs _ => hs, fun _ => rfl⟩
        · rw [if_neg hq] at h
          injection h with h2
          subst h2
          exact ⟨StInv_flush _ (StInv_promptRecord _ bp hinv),
            fun _ hs _ => hs, fun _ => rfl⟩
    | ok lines endr =>
      rw [streamLoop_ok] at h
      by_cases hp : (checkCancel cfg st).1 = true
      · rw [if_pos hp] at h
        injection h with h2
        subst h2
        exact ⟨hinv, fun _ hs _ => hs, fun _ => rfl⟩
      · rw [if_neg hp] at h
        obtain ⟨p1, p2, p3, p4, p5, p6, p7, p8, p9⟩ :=
          processLines_rel cfg lines (promptRecord (checkCancel cfg st).2 bp)
        have hinv2 : StInv (processLines cfg
            (promptRecord (checkCancel cfg st).2 bp) lines).1 :=
          StInv_processLines cfg lines _ (StInv_promptRecord _ bp hinv)
        split at h
        · rename_i heq
          injection h with h2
          subst h2
          refine ⟨StInv_flush _ hinv2, ?_, fun _ => p6⟩
          intro hw hs hc
          have hne : (processLines cfg (promptRecord (checkCancel cfg st).2
              bp) lines).2.2 ≠ .toolDetected := by
            rw [heq]
            decide
          show (processLines cfg (promptRecord (checkCancel cfg st).2 bp)
            lines).1.sawTool = false
          rw [(p1 hne).1]
          exact hs
        · rename_i heq
          injection h with h2
          subst h2
          refine ⟨StInv_flush _ hinv2, ?_, fun _ => p6⟩
          intro hw hs hc
          have hnec : (processLines cfg (promptRecord (checkCancel cfg st).2
              bp) lines).2.2 ≠ .cancelledLoop := by
            rw [heq]
            decide
          have hc3 : st.wasCancelled = true := (p4 hnec).symm.trans hc
          rw [hw] at hc3
          exact Bool.noConfusion hc3
        · rename_i heq
          split at h
          · injection h with h2
            subst h2
            refine ⟨StInv_flush _ hinv2, ?_, fun _ => p6⟩
            intro hw hs hc
            have hne : (processLines cfg (promptRecord (checkCancel cfg st).2
                bp) lines).2.2 ≠ .toolDetected := by
              rw [heq]
              decide
            show (processLines cfg (promptRecord (checkCancel cfg st).2 bp)
              lines).1.sawTool = false
            rw [(p1 hne).1]
            exact hs
          · rename_i transient msg
            have hne : (processLines cfg (promptRecord (checkCancel cfg st).2
                bp) lines).2.2 ≠ .toolDetected := by
              rw [heq]
              decide
            have hnec : (processLines cfg (promptRecord (checkCancel cfg
                st).2 bp) lines).2.2 ≠ .cancelledLoop := by
              rw [heq]
              decide
            by_cases hq : (checkCancel cfg (flush_pending (processLines cfg
                (promptRecord (checkCancel cfg st).2 bp) lines).1)).1 = true
            · rw [if_pos hq] at h
              injection h with h2
              subst h2
              refine ⟨StInv_flush _ hinv2, ?_, fun _ => p6⟩
              intro hw hs hc
              show (processLines cfg (promptRecord (checkCancel cfg st).2 bp)
                lines).1.sawTool = false
              rw [(p1 hne).1]
              exact hs
            · rw [if_neg hq] at h
              by_cases hret : (transient && (checkCancel cfg (flush_pending
                  (processLines cfg (promptRecord (checkCancel cfg st).2 bp)
                    lines).1)).2.attempt < 2) = true
              · rw [if_pos hret] at h
                rw [Bool.and_eq_true] at hret
                have hlt : (checkCancel cfg (flush_pending (processLines cfg
                    (promptRecord (checkCancel cfg st).2 bp)
                      lines).1)).2.attempt < 2 :=
                  of_decide_eq_true hret.2
                obtain ⟨i1, i2, i3⟩ := ih _ st' h
                  (StInv_retry _ msg (StInv_flush _ hinv2) hlt)
                refine ⟨i1, ?_, ?_⟩
                · intro hw hs hc
                  apply i2 ?_ ?_ hc
                  · show (processLines cfg (promptRecord (checkCancel cfg
                      st).2 bp) lines).1.wasCancelled = false
                    rw [p4 hnec]
                    exact hw
                  · show (processLines cfg (promptRecord (checkCancel cfg
                      st).2 bp) lines).1.sawTool = false
                    rw [(p1 hne).1]
                    exact hs
                · intro hnt
                  have h2 : (!transient && noTransientScript srest) = true :=
                    hnt
                  rw [Bool.and_eq_true] at h2
                  rw [hret.1] at h2
                  exact absurd h2.1 (by decide)
              · rw [if_neg hret] at h
                injection h with h2
                subst h2
                refine ⟨StInv_flush _ hinv2, ?_, fun _ => p6⟩
                intro hw hs hc
                show (processLines cfg (promptRecord (checkCancel cfg st).2
                  bp) lines).1.sawTool = false
                rw [(p1 hne).1]
                exact hs

/-- Unfolding: the run result built from a returned loop state. -/
theorem runStream_some (cfg : StreamCfg) (script : List ConnScript)
    (st : StreamSt) (h : streamLoop cfg initialStreamSt script = some st) :
    runStream cfg script = some
      { outcome := {
          was_cancelled := st.wasCancelled
          error := if st.lastErr.isSome && !st.wasCancelled then st.lastErr
            else none
          ttft := st.firstTok.map (fun ft => ft - cfg.startTime)
          gen_seconds := cfg.endTime - cfg.startTime
          chars := st.chars
          tokens := if st.chars = 0 then 0 else max 1 (st.chars /
            (if cfg.charsPerToken = 0 then 4 else cfg.charsPerToken)) }
        finalSt := flush_pending st
        sessionTokensAdded := if st.chars = 0 then 0 else max 1 (st.chars /
          (if cfg.charsPerToken = 0 then 4 else cfg.charsPerToken))
        sessionGenMsAdded := max 0 (cfg.endTime - st.firstTok.getD
          cfg.startTime) } := by
  unfold runStream
  rw [h]

/-- Unfolding: a run whose loop runs out of script. -/
theorem runStream_none (cfg : StreamCfg) (script : List ConnScript)
    (h : streamLoop cfg initialStreamSt script = none) :
    runStream cfg script = none := by
  unfold runStream
  rw [h]

/-- A cancellation observed at the very first check ends the run at once,
whatever the script holds. -/
theorem streamLoop_cancelled_entry (cfg : StreamCfg) (st : StreamSt)
    (script : List ConnScript) (h : (checkCancel cfg st).1 = true) :
    streamLoop cfg st script
      = some { (checkCancel cfg st).2 with wasCancelled := true } := by
  cases script with
  | nil => rw [streamLoop_nil, if_pos h]
  | cons sc srest =>
    rcases sc with ⟨bp, conn⟩
    cases conn with
    | postFail transient msg => rw [streamLoop_postFail, if_pos h]
    | loading wall => rw [streamLoop_loading, if_pos h]
    | httpError status detail => rw [streamLoop_httpError, if_pos h]
    | ok lines endr => rw [streamLoop_ok, if_pos h]

/-- C3: a cancelled stream run reports was_cancelled with no error, its
final message has empty buffers, and its content is exactly the consumed
text — everything already flushed is preserved and the remainder is flushed
rather than discarded. -/
theorem C3_cancellation :
    ∀ (cfg : StreamCfg) (script : List ConnScript) (r : RunOut),
      runStream cfg script = some r →
      r.outcome.was_cancelled = true →
      r.outcome.error = none ∧
      r.finalSt.pendingRaw = [] ∧
      r.finalSt.pendingDisplay = [] ∧
      r.finalSt.content = r.finalSt.consumedRaw := by
  intro cfg script r hrun hcanc
  cases hloop : streamLoop cfg initialStreamSt script with
  | none =>
    rw [runStream_none cfg script hloop] at hrun
    exact Option.noConfusion hrun
  | some st =>
    have heq := runStream_some cfg script st hloop
    rw [hrun] at heq
    injection heq with hr
    subst hr
    have hwc : st.wasCancelled = true := hcanc
    obtain ⟨hinv, hcsaw, _⟩ :=
      streamLoop_inv cfg script initialStreamSt st hloop StInv_initial
    have hsaw : st.sawTool = false := hcsaw rfl rfl hwc
    refine ⟨?_, rfl, rfl, ?_⟩
    · show (if st.lastErr.isSome && !st.wasCancelled then st.lastErr
        else none) = none
      rw [hwc]
      simp
    · show st.content ++ st.pendingRaw = st.consumedRaw
      exact hinv.1 hsaw

/-- Witness for C3: the cancelled run reports no error and keeps exactly
the consumed text. -/
theorem C3_cancellation_witness :
    c3run.outcome.error = none ∧
    c3run.finalSt.content = c3run.finalSt.consumedRaw := by
  have h := C3_cancellation c3cfg c3script c3run (by rfl) (by rfl)
  exact ⟨h.1, h.2.2.2⟩

/-- C7: the prompt of a reconnect attempt replaces the plain turn marker by
the continuation directive; every recorded prompt of every run was built
that way at an attempt index of at most 2 and at most 2 retries are ever
counted; a script with no transient failure counts none; cancellation
pre-empts any attempt (no prompt is ever sent after it); and the final
output of a tool-free run is cumulative — exactly the text consumed across
all attempts. -/
theorem C7_stream_retry :
    (∀ (base : Str) (a : Nat), 0 < a → assistantMarker.isSuffixOf base = true →
      buildPrompt base a
        = base.take (base.length - assistantMarker.length)
          ++ continuationDirective) ∧
    (∀ (cfg : StreamCfg) (script : List ConnScript) (r : RunOut),
      runStream cfg script = some r →
      r.finalSt.retries ≤ 2 ∧
      (∀ tr ∈ r.finalSt.sentPrompts, tr.1 ≤ 2 ∧
        tr.2.2 = buildPrompt tr.2.1 tr.1) ∧
      (r.finalSt.sawTool = false →
        r.finalSt.content = r.finalSt.consumedRaw)) ∧
    (∀ (cfg : StreamCfg) (script : List ConnScript) (r : RunOut),
      runStream cfg script = some r → noTransientScript script = true →
      r.finalSt.retries = 0) ∧
    (∀ (cfg : StreamCfg) (script : List ConnScript) (r : RunOut),
      cfg.cancelAt = some 0 → runStream cfg script = some r →
      r.outcome.was_cancelled = true ∧ r.finalSt.sentPrompts = [] ∧
      r.finalSt.retries = 0) := by
  refine ⟨?_, ?_, ?_, ?_⟩
  · intro base a ha hsuf
    unfold buildPrompt
    rw [if_pos ⟨ha, hsuf⟩]
  · intro cfg script r hrun
    cases hloop : streamLoop cfg initialStreamSt script with
    | none =>
      rw [runStream_none cfg script hloop] at hrun
      exact Option.noConfusion hrun
    | some st =>
      have heq := runStream_some cfg script st hloop
      rw [hrun] at heq
      injection heq with hr
      subst hr
      obtain ⟨hinv, _, _⟩ :=
        streamLoop_inv cfg script initialStreamSt st hloop StInv_initial
      refine ⟨?_, ?_, ?_⟩
      · show st.retries ≤ 2
        rw [hinv.2.2.1]
        exact hinv.2.2.2.1
      · intro tr htr
        exact hinv.2.2.2.2 tr htr
      · intro hsaw
        show st.content ++ st.pendingRaw = st.consumedRaw
        exact hinv.1 hsaw
  · intro cfg script r hrun hnt
    cases hloop : streamLoop cfg initialStreamSt script with
    | none =>
      rw [runStream_none cfg script hloop] at hrun
      exact Option.noConfusion hrun
    | some st =>
      have heq := runStream_some cfg script st hloop
      rw [hrun] at heq
      injection heq with hr
      subst hr
      obtain ⟨_, _, i3⟩ :=
        streamLoop_inv cfg script initialStreamSt st hloop StInv_initial
      exact i3 hnt
  · intro cfg script r hcfg hrun
    have hck : (checkCancel cfg initialStreamSt).1 = true := by
      show (match cfg.cancelAt with
        | none => false
        | some k => decide (k ≤ initialStreamSt.ticks)) = true
      rw [hcfg]
      rfl
    have hloop := streamLoop_cancelled_entry cfg initialStreamSt script hck
    have heq := runStream_some cfg script _ hloop
    rw [hrun] at heq
    injection heq with hr
    subst hr
    exact ⟨rfl, rfl, rfl⟩

/-- Witness for C7: the retried run stays within 2 retries and its output
is cumulative across the attempts. -/
theorem C7_stream_retry_witness :
    c7run.finalSt.retries ≤ 2 ∧
    c7run.finalSt.content = c7run.finalSt.consumedRaw := by
  have h := C7_stream_retry.2.1 c7cfg c7script c7run (by rfl)
  exact ⟨h.1, h.2.2 (by rfl)⟩

/-- C8 counterexample: with the first token at time 2 of a run spanning
times 0 to 10, the outcome's generation duration is 10 — measured from the
start time, not the claimed first-token time, which would give 8. -/
theorem C8_duration_counterexample :
    runStream c8cfg c8script = some c8run ∧
    c8run.finalSt.firstTok = some 2 ∧
    c8run.outcome.gen_seconds = c8cfg.endTime - c8cfg.startTime ∧
    ¬ c8run.outcome.gen_seconds
        = c8cfg.endTime - (c8run.finalSt.firstTok.getD c8cfg.startTime) := by
  refine ⟨rfl, rfl, rfl, ?_⟩
  decide

/-- C8 amended: the outcome's generation duration is end minus start time
(the first-token-based duration instead feeds the session generation-time
stat), the token count is characters divided by the ratio, floored, with
minimum 1 when any character was produced and 0 otherwise, and the
character count counts exactly the consumed text. -/
theorem C8_outcome_metrics :
    ∀ (cfg : StreamCfg) (script : List ConnScript) (r : RunOut),
      runStream cfg script = some r →
      r.outcome.gen_seconds = cfg.endTime - cfg.startTime ∧
      r.outcome.ttft
        = r.finalSt.firstTok.map (fun ft => ft - cfg.startTime) ∧
      r.sessionGenMsAdded
        = max 0 (cfg.endTime - r.finalSt.firstTok.getD cfg.startTime) ∧
      r.outcome.tokens = (if r.outcome.chars = 0 then 0
        else max 1 (r.outcome.chars /
          (if cfg.charsPerToken = 0 then 4 else cfg.charsPerToken))) ∧
      r.sessionTokensAdded = r.outcome.tokens ∧
      r.outcome.chars = r.finalSt.consumedRaw.length := by
  intro cfg script r hrun
  cases hloop : streamLoop cfg initialStreamSt script with
  | none =>
    rw [runStream_none cfg script hloop] at hrun
    exact Option.noConfusion hrun
  | some st =>
    have heq := runStream_some cfg script st hloop
    rw [hrun] at heq
    injection heq with hr
    subst hr
    obtain ⟨hinv, _, _⟩ :=
      streamLoop_inv cfg script initialStreamSt st hloop StInv_initial
    exact ⟨rfl, rfl, rfl, rfl, rfl, hinv.2.1⟩

/-- Witness for the amended C8 theorem at the concrete run. -/
theorem C8_outcome_metrics_witness :
    c8run.outcome.gen_seconds = c8cfg.endTime - c8cfg.startTime ∧
    c8run.outcome.chars = c8run.finalSt.consumedRaw.length := by
  have h := C8_outcome_metrics c8cfg c8script c8run (by rfl)
  exact ⟨h.1, h.2.2.2.2.2⟩

/-! Lemmas and observers for the tool-interception claim. -/

/-- With no cancellation scheduled, every check is negative. -/
theorem checkCancel_none (cfg : StreamCfg) (st : StreamSt)
    (h : cfg.cancelAt = none) : (checkCancel cfg st).1 = false := by
  show (match cfg.cancelAt with
    | none => false
    | some k => decide (k ≤ st.ticks)) = false
  rw [h]

/-- A check leaves the message text untouched. -/
theorem tick_content (cfg : StreamCfg) (st : StreamSt) :
    (checkCancel cfg st).2.content = st.content := rfl

/-- A check leaves the raw buffer untouched. -/
theorem tick_pendingRaw (cfg : StreamCfg) (st : StreamSt) :
    (checkCancel cfg st).2.pendingRaw = st.pendingRaw := rfl

/-- A check leaves the consumed ghost untouched. -/
theorem tick_consumedRaw (cfg : StreamCfg) (st : StreamSt) :
    (checkCancel cfg st).2.consumedRaw = st.consumedRaw := rfl

/-- The buffered append extends the consumed ghost by the chunk. -/
theorem chunkAppend_consumedRaw (cfg : StreamCfg) (st : StreamSt)
    (tArr : Time) (content : Str) :
    (chunkAppend cfg st tArr content).consumedRaw
      = st.consumedRaw ++ content := rfl

/-- Interception transfers backwards along one consumed prefix step. -/
theorem InterceptSpec_transfer (cfg : StreamCfg) (l1 lfull : List LineEvent)
    (t : Time) (c A : Str) (l2 : List LineEvent) (st st3 : StreamSt)
    (hrun : processLines cfg st (lfull ++ .chunk t c :: l2)
      = processLines cfg st3 (l1 ++ .chunk t c :: l2))
    (hcombEq : st3.content ++ st3.pendingRaw
      = st.content ++ st.pendingRaw ++ A)
    (hcons : st3.consumedRaw = st.consumedRaw ++ A)
    (hraws : rawsOf lfull = A ++ rawsOf l1)
    (h : InterceptSpec cfg st3 l1 t c l2) :
    InterceptSpec cfg st lfull t c l2 := by
  obtain ⟨tc, raw, st', e1, e2, e3, e4, e5, e6, e7, e8, e9, e10⟩ := h
  have hX : st.content ++ st.pendingRaw ++ (rawsOf lfull ++ c)
      = st3.content ++ st3.pendingRaw ++ (rawsOf l1 ++ c) := by
    rw [hcombEq, hraws]
    simp [List.append_assoc]
  have hX2 : st.consumedRaw ++ (rawsOf lfull ++ c)
      = st3.consumedRaw ++ (rawsOf l1 ++ c) := by
    rw [hcons, hraws]
    simp [List.append_assoc]
  refine ⟨tc, raw, st', hrun.trans e1, ?_, ?_, e4, e5, e6, e7, e8, e9, ?_⟩
  · rw [hX]
    exact e2
  · rw [hX]
    exact e3
  · rw [hX2]
    exact e10

/-- C6: after every buffered append the grammar parser is re-run on the
combined pre-existing plus newly buffered content; the first positive match
(here landing on the chunk after a detection-free prefix) makes the
consumer stop consuming at once — the remaining lines come back untouched —
discard the just-buffered display text, show the status line instead, and
report the detected call's raw text. -/
theorem C6_tool_interception :
    ∀ (cfg : StreamCfg) (t : Time) (c : Str) (l2 : List LineEvent),
      cfg.cancelAt = none → c ≠ [] →
      ∀ (l1 : List LineEvent) (st : StreamSt),
      st.sawTool = false →
      detectFree (st.content ++ st.pendingRaw) l1 = true →
      detectCond (st.content ++ st.pendingRaw ++ (rawsOf l1 ++ c)) = true →
      InterceptSpec cfg st l1 t c l2 := by
  intro cfg t c l2 hcan hcne l1
  induction l1 with
  | nil =>
    intro st hsaw hfree hdet
    have hdet0 : detectCond (st.content ++ st.pendingRaw ++ c) = true := by
      have h0 : detectCond (st.content ++ st.pendingRaw ++ ([] ++ c))
          = true := hdet
      rwa [List.nil_append] at h0
    have hdet1 : ((parse_tool_call (pyStrip
          (st.content ++ st.pendingRaw ++ c))).isSome
        && (_extract_first_json_object (pyStrip
          (st.content ++ st.pendingRaw ++ c))).isSome) = true := hdet0
    rw [Bool.and_eq_true] at hdet1
    obtain ⟨tc, htc⟩ := Option.isSome_iff_exists.mp hdet1.1
    obtain ⟨raw, hraw⟩ := Option.isSome_iff_exists.mp hdet1.2
    unfold InterceptSpec
    rw [List.nil_append, processLines_chunk,
      if_neg (show ¬(checkCancel cfg st).1 = true from by
        rw [checkCancel_none cfg st hcan]
        exact Bool.false_ne_true),
      if_neg hcne,
      if_pos (show (chunkAppend cfg (checkCancel cfg st).2 t c).sawTool
        = false from hsaw),
      chunkAppend_combined, tick_content, tick_pendingRaw, htc, hraw]
    exact ⟨tc, raw, markTool (chunkAppend cfg (checkCancel cfg st).2 t c)
      tc raw, rfl, htc, hraw, rfl, rfl, rfl, rfl, rfl, rfl, rfl⟩
  | cons ev l1 ih =>
    intro st hsaw hfree hdet
    cases ev with
    | blank =>
      have hstep : processLines cfg st
          ((LineEvent.blank :: l1) ++ .chunk t c :: l2)
          = processLines cfg (checkCancel cfg st).2
            (l1 ++ .chunk t c :: l2) := by
        rw [List.cons_append, processLines_blank,
          if_neg (show ¬(checkCancel cfg st).1 = true from by
            rw [checkCancel_none cfg st hcan]
            exact Bool.false_ne_true)]
      exact InterceptSpec_transfer cfg l1 _ t c [] l2 st
        (checkCancel cfg st).2 hstep
        (by rw [List.append_nil, tick_content, tick_pendingRaw])
        (by rw [List.append_nil, tick_consumedRaw]) rfl
        (ih _ hsaw hfree hdet)
    | nondata =>
      have hstep : processLines cfg st
          ((LineEvent.nondata :: l1) ++ .chunk t c :: l2)
          = processLines cfg (checkCancel cfg st).2
            (l1 ++ .chunk t c :: l2) := by
        rw [List.cons_append, processLines_nondata,
          if_neg (show ¬(checkCancel cfg st).1 = true from by
            rw [checkCancel_none cfg st hcan]
            exact Bool.false_ne_true)]
      exact InterceptSpec_transfer cfg l1 _ t c [] l2 st
        (checkCancel cfg st).2 hstep
        (by rw [List.append_nil, tick_content, tick_pendingRaw])
        (by rw [List.append_nil, tick_consumedRaw]) rfl
        (ih _ hsaw hfree hdet)
    | chunk t1 c1 =>
      by_cases hc1 : c1 = []
      · subst hc1
        have hfree0 : (if ([] : Str) = []
            then detectFree (st.content ++ st.pendingRaw) l1
            else !detectCond (st.content ++ st.pendingRaw ++ [])
              && detectFree (st.content ++ st.pendingRaw ++ []) l1)
            = true := hfree
        rw [if_pos rfl] at hfree0
        have hstep : processLines cfg st
            ((LineEvent.chunk t1 [] :: l1) ++ .chunk t c :: l2)
            = processLines cfg (checkCancel cfg st).2
              (l1 ++ .chunk t c :: l2) := by
          rw [List.cons_append, processLines_chunk,
            if_neg (show ¬(checkCancel cfg st).1 = true from by
              rw [checkCancel_none cfg st hcan]
              exact Bool.false_ne_true),
            if_pos rfl]
        exact InterceptSpec_transfer cfg l1 _ t c [] l2 st
          (checkCancel cfg st).2 hstep
          (by rw [List.append_nil, tick_content, tick_pendingRaw])
          (by rw [List.append_nil, tick_consumedRaw]) rfl
          (ih _ hsaw hfree0 hdet)
      · have hfree0 : (if c1 = []
            then detectFree (st.content ++ st.pendingRaw) l1
            else !detectCond (st.content ++ st.pendingRaw ++ c1)
              && detectFree (st.content ++ st.pendingRaw ++ c1) l1)
            = true := hfree
        rw [if_neg hc1, Bool.and_eq_true] at hfree0
        obtain ⟨hnd, hfree1⟩ := hfree0
        have hnd2 : detectCond (st.content ++ st.pendingRaw ++ c1)
            = false := by
          rcases Bool.eq_false_or_eq_true
            (detectCond (st.content ++ st.pendingRaw ++ c1)) with h0 | h0
          · rw [h0] at hnd
            exact absurd hnd (by decide)
          · exact h0
        have hstep : processLines cfg st
            ((LineEvent.chunk t1 c1 :: l1) ++ .chunk t c :: l2)
            = processLines cfg
              (debounce t1 (chunkAppend cfg (checkCancel cfg st).2 t1 c1))
              (l1 ++ .chunk t c :: l2) := by
          rw [List.cons_append, processLines_chunk,
            if_neg (show ¬(checkCancel cfg st).1 = true from by
              rw [checkCancel_none cfg st hcan]
              exact Bool.false_ne_true),
            if_neg hc1,
            if_pos (show (chunkAppend cfg (checkCancel cfg st).2 t1
              c1).sawTool = false from hsaw),
            chunkAppend_combined, tick_content, tick_pendingRaw]
          have hdc : ((parse_tool_call (pyStrip
                (st.content ++ st.pendingRaw ++ c1))).isSome
              && (_extract_first_json_object (pyStrip
                (st.content ++ st.pendingRaw ++ c1))).isSome)
              = false := hnd2
          cases hpar : parse_tool_call (pyStrip
              (st.content ++ st.pendingRaw ++ c1)) with
          | none => rfl
          | some tc2 =>
            rw [hpar] at hdc
            have hext : _extract_first_json_object (pyStrip
                (st.content ++ st.pendingRaw ++ c1)) = none := by
              rcases hres : _extract_first_json_object (pyStrip
                  (st.content ++ st.pendingRaw ++ c1)) with _ | r2
              · rfl
              · rw [hres] at hdc
                simp at hdc
            rw [hext]
        have hd3 := debounce_fields t1
          (chunkAppend cfg (checkCancel cfg st).2 t1 c1)
        have hcombEq : (debounce t1 (chunkAppend cfg (checkCancel cfg st).2
              t1 c1)).content
            ++ (debounce t1 (chunkAppend cfg (checkCancel cfg st).2 t1
              c1)).pendingRaw
            = st.content ++ st.pendingRaw ++ c1 := by
          rw [hd3.2.2.2.2.2.2.2.2.2, chunkAppend_combined, tick_content,
            tick_pendingRaw]
        have hcons : (debounce t1 (chunkAppend cfg (checkCancel cfg st).2 t1
            c1)).consumedRaw = st.consumedRaw ++ c1 := by
          rw [hd3.2.2.2.2.2.2.2.1, chunkAppend_consumedRaw,
            tick_consumedRaw]
        have hsaw3 : (debounce t1 (chunkAppend cfg (checkCancel cfg st).2 t1
            c1)).sawTool = false := by
          rw [hd3.1]
          exact hsaw
        have hfree3 : detectFree ((debounce t1 (chunkAppend cfg
              (checkCancel cfg st).2 t1 c1)).content
            ++ (debounce t1 (chunkAppend cfg (checkCancel cfg st).2 t1
              c1)).pendingRaw) l1 = true := by
          rw [hcombEq]
          exact hfree1
        have hdet3 : detectCond ((debounce t1 (chunkAppend cfg
              (checkCancel cfg st).2 t1 c1)).content
            ++ (debounce t1 (chunkAppend cfg (checkCancel cfg st).2 t1
              c1)).pendingRaw ++ (rawsOf l1 ++ c)) = true := by
          rw [hcombEq]
          have hdet0 : detectCond (st.content ++ st.pendingRaw
              ++ ((c1 ++ rawsOf l1) ++ c)) = true := hdet
          rw [List.append_assoc c1 (rawsOf l1) c] at hdet0
          rw [List.append_assoc (st.content ++ st.pendingRaw) c1
            (rawsOf l1 ++ c)]
          exact hdet0
        exact InterceptSpec_transfer cfg l1 _ t c c1 l2 st _ hstep hcombEq
          hcons rfl (ih _ hsaw3 hfree3 hdet3)

/-- Witness for C6: on the concrete run the loop stops at the detecting
chunk, hands back the unconsumed remainder, sets the tool flag and clears
the display buffer. -/
theorem C6_tool_interception_witness :
    (processLines c6cfg initialStreamSt
      (c6l1 ++ LineEvent.chunk 2 c6chunk :: c6l2)).2.2
        = LoopExit.toolDetected ∧
    (processLines c6cfg initialStreamSt
      (c6l1 ++ LineEvent.chunk 2 c6chunk :: c6l2)).2.1 = c6l2 ∧
    (processLines c6cfg initialStreamSt
      (c6l1 ++ LineEvent.chunk 2 c6chunk :: c6l2)).1.sawTool = true ∧
    (processLines c6cfg initialStreamSt
      (c6l1 ++ LineEvent.chunk 2 c6chunk :: c6l2)).1.pendingDisplay = [] := by
  obtain ⟨tc, raw, st', e1, _, _, _, _, _, _, e8, e9, _⟩ :=
    C6_tool_interception c6cfg 2 c6chunk c6l2 rfl (by decide) c6l1
      initialStreamSt rfl (by decide) (by decide)
  rw [e1]
  exact ⟨rfl, rfl, e9, e8⟩

end LlmDesktop
